import Mathlib

/-!
Shallow embedding of the janet-yyjson bindings (src/bindings.c): a codec
between Janet values and JSON documents built on the yyjson library.
Machine doubles are modelled by the type JNum below; byte sequences are
lists of naturals (byte values).
-/

namespace JanetYyjson

/-- C doubles as they matter to this codec: a finite value (modelled
exactly as a rational) or one of the non-finite values NaN, +Inf, -Inf. -/
inductive JNum where
  | finite (q : ℚ)
  | nan
  | inf
  | neginf
deriving DecidableEq, Repr

/-- Kernel-reducible addition on rationals (the library addition is
irreducible, which would block evaluating the codec on concrete inputs). -/
def qAdd (a b : ℚ) : ℚ := mkRat (a.num * b.den + b.num * a.den) (a.den * b.den)

/-- Kernel-reducible multiplication on rationals. -/
def qMul (a b : ℚ) : ℚ := mkRat (a.num * b.num) (a.den * b.den)

/-- Kernel-reducible absolute value on rationals. -/
def qAbs (q : ℚ) : ℚ := if q < 0 then -q else q

/-- Floor of a rational, computed from numerator and denominator. -/
def ratFloor (q : ℚ) : Int := q.num.fdiv q.den

/-- C round(): round half away from zero. -/
def cround (q : ℚ) : Int :=
  if 0 ≤ q then ratFloor (qAdd q (mkRat 1 2)) else -(ratFloor (qAdd (-q) (mkRat 1 2)))

/-- Truncation toward zero, the behaviour of a C double-to-integer cast
on in-range values. -/
def ratTrunc (q : ℚ) : Int :=
  if 0 ≤ q then ratFloor q else -(ratFloor (-q))

/-- The C comparison round(number) == number from encode_one: false on NaN
(IEEE comparison with NaN is false), true on both infinities
(round preserves them and they compare equal to themselves). -/
def roundEqSelf (n : JNum) : Bool :=
  match n with
  | .finite q => ((cround q : ℚ) == q)
  | .nan => false
  | .inf => true
  | .neginf => true

/-- The cast (int64_t)number from encode_one. Defined (truncation toward
zero) when the truncated value fits in a signed 64-bit integer; the C
standard leaves it undefined otherwise (including both infinities), which
is modelled as none. -/
def doubleToInt64 (n : JNum) : Option Int :=
  match n with
  | .finite q =>
      if -(2 ^ 63) ≤ ratTrunc q ∧ ratTrunc q < 2 ^ 63 then some (ratTrunc q) else none
  | _ => none

mutual

/-- Janet runtime values, as far as the codec observes them through the C
API: the byte-sequence kinds (string, symbol, keyword, buffer) carry their
byte content, indexed kinds carry their elements, dictionary kinds carry
their slot list as janet_dictionary_view exposes it (a pair whose key is
nil is an unused slot), and jabstract stands for every other Janet type
(functions, fibers, abstract types, ...), all of which encode_one sends to
its default branch. -/
inductive JanetV where
  | jnil
  | jbool (b : Bool)
  | jnum (n : JNum)
  | jstr (bs : List Nat)
  | jsym (bs : List Nat)
  | jkey (bs : List Nat)
  | jbuf (bs : List Nat)
  | jtup (xs : JVList)
  | jarr (xs : JVList)
  | jtab (kvs : JKVList)
  | jstruct (kvs : JKVList)
  | jabstract
deriving DecidableEq, Repr

/-- A list of Janet values (elements of a tuple or array). -/
inductive JVList where
  | nil
  | cons (hd : JanetV) (tl : JVList)
deriving DecidableEq, Repr

/-- A list of key/value slots of a Janet table or struct. -/
inductive JKVList where
  | nil
  | cons (k v : JanetV) (tl : JKVList)
deriving DecidableEq, Repr

end

mutual

/-- An immutable yyjson document value as produced by yyjson_read: the
node kinds decode_one dispatches on. ynone stands for any node kind
outside the six JSON kinds (yyjson raw/none nodes), which decode_one sends
to its default branch. Object keys are full nodes because decode_one
checks yyjson_is_str on each key. -/
inductive YVal where
  | ynone
  | ynull
  | ybool (b : Bool)
  | ynum (n : JNum)
  | ystr (bs : List Nat)
  | yarr (xs : YVList)
  | yobj (kvs : YKVList)
deriving DecidableEq, Repr

/-- A list of yyjson array elements. -/
inductive YVList where
  | nil
  | cons (hd : YVal) (tl : YVList)
deriving DecidableEq, Repr

/-- A list of yyjson object entries (key node, value node). -/
inductive YKVList where
  | nil
  | cons (k v : YVal) (tl : YKVList)
deriving DecidableEq, Repr

end

mutual

/-- A mutable yyjson document value as built by encode_one. Integer nodes
carry an Option Int: none records that the stored value arose from an
undefined double-to-int64 cast. -/
inductive YMut where
  | mnull
  | mbool (b : Bool)
  | mint (i : Option Int)
  | mreal (n : JNum)
  | mstr (bs : List Nat)
  | marr (xs : YMList)
  | mobj (kvs : YMKVList)
deriving DecidableEq, Repr

/-- A list of mutable yyjson array elements. -/
inductive YMList where
  | nil
  | cons (hd : YMut) (tl : YMList)
deriving DecidableEq, Repr

/-- A list of mutable yyjson object entries. -/
inductive YMKVList where
  | nil
  | cons (k v : YMut) (tl : YMKVList)
deriving DecidableEq, Repr

end

/-! Constants from the C source and its host headers. -/

/-- JANET_RECURSION_GUARD, the fixed recursion-depth threshold of the
Janet host (1024 in janet.h's default configuration); both decode_one and
encode_one compare the low 16 bits of their depth word against it. -/
def janetRecursionGuard : Nat := 1024

/-- JSON_KEYWORD_KEY, bit 16 of the packed depth word. -/
def jsonKeywordKey : Nat := 0x10000

/-- JSON_NULL_TO_NIL, bit 17 of the packed depth word. -/
def jsonNullToNil : Nat := 0x20000

/-- Reading a NUL-terminated C string out of a byte sequence (strlen
semantics): the bytes before the first NUL byte. -/
def cstrBytes (bs : List Nat) : List Nat := bs.takeWhile (fun b => b != 0)

/-- The ASCII bytes of the text null. -/
def nullBytes : List Nat := [110, 117, 108, 108]

/-- janet_keyeq(x, "null"): true exactly when x is a keyword whose bytes
are the ASCII text null. Keywords only — strings, symbols and buffers
never satisfy janet_keyeq whatever their content. -/
def janetKeyeqNull (x : JanetV) : Bool :=
  match x with
  | .jkey bs => bs == nullBytes
  | _ => false

/-- janet_checktypes(x, JANET_TFLAG_BYTES): the four byte-sequence kinds. -/
def isByteSeq (x : JanetV) : Bool :=
  match x with
  | .jstr _ => true
  | .jsym _ => true
  | .jkey _ => true
  | .jbuf _ => true
  | _ => false

/-- IEEE double equality as janet_equals uses it on numbers: NaN is not
equal to anything, both infinities are equal to themselves, finite values
compare exactly. -/
def jnumEquals (a b : JNum) : Bool :=
  match a, b with
  | .finite x, .finite y => x == y
  | .inf, .inf => true
  | .neginf, .neginf => true
  | _, _ => false

/-- janet_equals restricted to the value kinds that can appear as table
keys in this model (the keys decode_one builds are strings and keywords).
Buffers and containers compare by identity in Janet, which a value model
cannot observe; they are never used as keys here, so false is returned. -/
def janetEquals (a b : JanetV) : Bool :=
  match a, b with
  | .jnil, .jnil => true
  | .jbool x, .jbool y => x == y
  | .jnum x, .jnum y => jnumEquals x y
  | .jstr x, .jstr y => x == y
  | .jsym x, .jsym y => x == y
  | .jkey x, .jkey y => x == y
  | _, _ => false

/-- Removal step of janet_table_put: drop the slot whose key equals k (a
hash table holds at most one). -/
def tableRemove (t : JKVList) (k : JanetV) : JKVList :=
  match t with
  | .nil => .nil
  | .cons k0 v0 tl =>
      if janetEquals k0 k then tl else .cons k0 v0 (tableRemove tl k)

/-- Update-or-append step of janet_table_put for a non-nil value. -/
def tableSet (t : JKVList) (k v : JanetV) : JKVList :=
  match t with
  | .nil => .cons k v .nil
  | .cons k0 v0 tl =>
      if janetEquals k0 k then .cons k0 v tl else .cons k0 v0 (tableSet tl k v)

/-- janet_table_put: a nil key (or NaN key) is ignored, a nil value
removes the key, otherwise the binding is updated in place or appended. -/
def tablePut (t : JKVList) (k v : JanetV) : JKVList :=
  match k with
  | .jnil => t
  | .jnum .nan => t
  | _ => match v with
         | .jnil => tableRemove t k
         | _ => tableSet t k v

mutual

/-- decode_one from src/bindings.c: converts a parsed yyjson node into a
Janet value. The depth word packs the recursion depth in its low 16 bits
with the two policy flags at bits 16 and 17, exactly as the C code does. -/
def decode_one (root : YVal) (depth : Nat) : Except String JanetV :=
  if depth &&& 0xFFFF > janetRecursionGuard then .error "recursed too deeply"
  else
    match root with
    | .ynone => .error "type not supported"
    | .ynull =>
        if depth &&& jsonNullToNil != 0 then .ok .jnil else .ok (.jkey nullBytes)
    | .ybool b => .ok (.jbool b)
    | .ynum n => .ok (.jnum n)
    | .ystr bs => .ok (.jstr (cstrBytes bs))
    | .yarr xs =>
        match decodeList xs (depth + 1) with
        | .error e => .error e
        | .ok l => .ok (.jarr l)
    | .yobj kvs =>
        match decodeObj kvs depth .nil with
        | .error e => .error e
        | .ok t => .ok (.jtab t)

/-- The element loop of decode_one's array case; every element is decoded
at the parent's depth plus one (already incremented by the caller). -/
def decodeList (xs : YVList) (depth : Nat) : Except String JVList :=
  match xs with
  | .nil => .ok .nil
  | .cons hd tl =>
      match decode_one hd depth with
      | .error e => .error e
      | .ok v =>
          match decodeList tl depth with
          | .error e => .error e
          | .ok l => .ok (.cons v l)

/-- The entry loop of decode_one's object case: each key must be a string
node, is converted at the current depth using the keyword-key flag, and
each value is decoded one level deeper; entries land in the table through
janet_table_put in document order. -/
def decodeObj (kvs : YKVList) (depth : Nat) (acc : JKVList) : Except String JKVList :=
  match kvs with
  | .nil => .ok acc
  | .cons k v tl =>
      match k with
      | .ystr ks =>
          let subkey := if depth &&& jsonKeywordKey != 0
                        then JanetV.jkey (cstrBytes ks)
                        else JanetV.jstr (cstrBytes ks)
          match decode_one v (depth + 1) with
          | .error e => .error e
          | .ok sv => decodeObj tl depth (tablePut acc subkey sv)
      | _ => .error "object key must be a str"

end

mutual

/-- Decoder conversion written from the spec's words (section 4.1): the
keyword_keys and null_to_absent policies are explicit per-call flags
threaded unchanged through the whole recursion, and the depth is a plain
counter checked against the same fixed guard. decode_one refines this. -/
def decodeSpec (kw nl : Bool) (root : YVal) (depth : Nat) : Except String JanetV :=
  if depth > janetRecursionGuard then .error "recursed too deeply"
  else
    match root with
    | .ynone => .error "type not supported"
    | .ynull => if nl then .ok .jnil else .ok (.jkey nullBytes)
    | .ybool b => .ok (.jbool b)
    | .ynum n => .ok (.jnum n)
    | .ystr bs => .ok (.jstr (cstrBytes bs))
    | .yarr xs =>
        match decodeSpecList kw nl xs (depth + 1) with
        | .error e => .error e
        | .ok l => .ok (.jarr l)
    | .yobj kvs =>
        match decodeSpecObj kw nl kvs depth .nil with
        | .error e => .error e
        | .ok t => .ok (.jtab t)

/-- Array elements under the spec decoder, each at the given depth. -/
def decodeSpecList (kw nl : Bool) (xs : YVList) (depth : Nat) : Except String JVList :=
  match xs with
  | .nil => .ok .nil
  | .cons hd tl =>
      match decodeSpec kw nl hd depth with
      | .error e => .error e
      | .ok v =>
          match decodeSpecList kw nl tl depth with
          | .error e => .error e
          | .ok l => .ok (.cons v l)

/-- Object entries under the spec decoder: keys per the keyword_keys flag,
values one level deeper, native-map insertion semantics. -/
def decodeSpecObj (kw nl : Bool) (kvs : YKVList) (depth : Nat) (acc : JKVList) :
    Except String JKVList :=
  match kvs with
  | .nil => .ok acc
  | .cons k v tl =>
      match k with
      | .ystr ks =>
          let subkey := if kw then JanetV.jkey (cstrBytes ks)
                        else JanetV.jstr (cstrBytes ks)
          match decodeSpec kw nl v (depth + 1) with
          | .error e => .error e
          | .ok sv => decodeSpecObj kw nl tl depth (tablePut acc subkey sv)
      | _ => .error "object key must be a str"

end

/-- yyjson_mut_obj_add: appends the pair when the key is a string node
and silently does nothing otherwise (the C call returns false, which
encode_one ignores). -/
def mutObjAdd (k v : YMut) (rest : YMKVList) : YMKVList :=
  match k with
  | .mstr _ => .cons k v rest
  | _ => rest

mutual

/-- encode_one from src/bindings.c: converts a Janet value into a mutable
yyjson node. The depth word has the same packed layout as on the decode
side (json_encode always starts it at 0, so the flag bits stay clear). -/
def encode_one (x : JanetV) (depth : Nat) : Except String YMut :=
  if depth &&& 0xFFFF > janetRecursionGuard then .error "recursed too deeply"
  else
    match x with
    | .jnil => .ok .mnull
    | .jbool b => .ok (.mbool b)
    | .jnum n =>
        if roundEqSelf n then .ok (.mint (doubleToInt64 n)) else .ok (.mreal n)
    | .jstr bs =>
        if janetKeyeqNull (.jstr bs) then .ok .mnull
        else .ok (.mstr (cstrBytes bs))
    | .jsym bs =>
        if janetKeyeqNull (.jsym bs) then .ok .mnull
        else .ok (.mstr (cstrBytes bs))
    | .jkey bs =>
        if janetKeyeqNull (.jkey bs) then .ok .mnull
        else .ok (.mstr (cstrBytes bs))
    | .jbuf bs =>
        if janetKeyeqNull (.jbuf bs) then .ok .mnull
        else .ok (.mstr (cstrBytes bs))
    | .jtup xs =>
        match encodeList xs (depth + 1) with
        | .error e => .error e
        | .ok l => .ok (.marr l)
    | .jarr xs =>
        match encodeList xs (depth + 1) with
        | .error e => .error e
        | .ok l => .ok (.marr l)
    | .jtab kvs =>
        match encodeObj kvs (depth + 1) with
        | .error e => .error e
        | .ok o => .ok (.mobj o)
    | .jstruct kvs =>
        match encodeObj kvs (depth + 1) with
        | .error e => .error e
        | .ok o => .ok (.mobj o)
    | .jabstract => .error "type not supported"

/-- The element loop of encode_one's array/tuple case, every element one
level deeper than the container (already incremented by the caller). -/
def encodeList (xs : JVList) (depth : Nat) : Except String YMList :=
  match xs with
  | .nil => .ok .nil
  | .cons hd tl =>
      match encode_one hd depth with
      | .error e => .error e
      | .ok v =>
          match encodeList tl depth with
          | .error e => .error e
          | .ok l => .ok (.cons v l)

/-- The slot loop of encode_one's table/struct case: slots with a nil key
are skipped, a non-byte-sequence key aborts with the invalid-key message,
and both key and value are encoded one level deeper before being handed
to yyjson_mut_obj_add. -/
def encodeObj (kvs : JKVList) (depth : Nat) : Except String YMKVList :=
  match kvs with
  | .cons k v tl =>
      if k = JanetV.jnil then encodeObj tl depth
      else if !(isByteSeq k) then .error "object key must be a byte sequence"
      else
        match encode_one k depth with
        | .error e => .error e
        | .ok sk =>
            match encode_one v depth with
            | .error e => .error e
            | .ok sv =>
                match encodeObj tl depth with
                | .error e => .error e
                | .ok rest => .ok (mutObjAdd sk sv rest)
  | .nil => .ok .nil

end

mutual

/-- Modelled from the spec: the composition of yyjson_mut_write and
yyjson_read, whose sources are not under src/ (the spec treats the yyjson
library as a black box that serialises a document tree to text and parses
text back into a tree). Writing then reading is faithful for every
supported node; an integer node holding the result of an undefined cast
has no defined text, and the default writer fails on NaN and infinite
reals, both modelled as none. Number round-tripping is exact here because
JNum.finite models a double exactly. -/
def reparse (m : YMut) : Option YVal :=
  match m with
  | .mnull => some .ynull
  | .mbool b => some (.ybool b)
  | .mint none => none
  | .mint (some i) => some (.ynum (.finite (i : ℚ)))
  | .mreal (.finite q) => some (.ynum (.finite q))
  | .mreal _ => none
  | .mstr bs => some (.ystr bs)
  | .marr xs =>
      match reparseList xs with
      | none => none
      | some l => some (.yarr l)
  | .mobj kvs =>
      match reparseObj kvs with
      | none => none
      | some l => some (.yobj l)

/-- Write-then-read on array elements. -/
def reparseList (xs : YMList) : Option YVList :=
  match xs with
  | .nil => some .nil
  | .cons hd tl =>
      match reparse hd, reparseList tl with
      | some y, some l => some (.cons y l)
      | _, _ => none

/-- Write-then-read on object entries. -/
def reparseObj (kvs : YMKVList) : Option YKVList :=
  match kvs with
  | .nil => some .nil
  | .cons k v tl =>
      match reparse k, reparse v, reparseObj tl with
      | some yk, some yv, some l => some (.cons yk yv l)
      | _, _, _ => none

end

/-! Text output, modelled from the spec: the underlying writer emits
compact JSON by default or pretty JSON with two-space indentation. -/

/-- Decimal digits of a natural number as ASCII bytes. -/
def natTextBytes (n : Nat) : List Nat := (Nat.toDigits 10 n).map Char.toNat

/-- Decimal text of an integer as ASCII bytes. -/
def intTextBytes (i : Int) : List Nat :=
  if i < 0 then 45 :: natTextBytes i.natAbs else natTextBytes i.toNat

/-- Lowercase hexadecimal digit byte. -/
def hexDigitByte (n : Nat) : Nat := if n < 10 then 48 + n else 87 + n

/-- JSON string escaping of one byte: quote and backslash are escaped,
the common control characters use their two-character escapes, the other
control bytes use a four-hex-digit escape, everything else is emitted
as-is. -/
def escapeByte (b : Nat) : List Nat :=
  if b == 34 then [92, 34]
  else if b == 92 then [92, 92]
  else if b == 8 then [92, 98]
  else if b == 9 then [92, 116]
  else if b == 10 then [92, 110]
  else if b == 12 then [92, 102]
  else if b == 13 then [92, 114]
  else if b < 32 then [92, 117, 48, 48, hexDigitByte (b / 16), hexDigitByte (b % 16)]
  else [b]

/-- A quoted, escaped JSON string for the given content bytes. -/
def strTextBytes (bs : List Nat) : List Nat :=
  34 :: bs.foldr (fun b acc => escapeByte b ++ acc) [34]

/-- Smallest number of decimal fraction digits (at most 17, the digits a
double can need) that writes the given non-negative rational exactly. -/
def decPow (q : ℚ) : Option Nat :=
  (List.range 18).find? (fun k => (qMul q ((10 ^ k : Nat) : ℚ)).den == 1)

/-- Modelled from the spec: the underlying writer's text for a
floating-point-typed number, which always carries a decimal point. Fails
(none) when no short exact decimal exists; the shortest-round-trip
representation of an actual double always does. -/
def realTextBytes (q : ℚ) : Option (List Nat) :=
  match decPow (qAbs q) with
  | none => none
  | some k0 =>
      let k := max k0 1
      let m := (qMul (qAbs q) ((10 ^ k : Nat) : ℚ)).num.toNat
      let ds := natTextBytes (m % 10 ^ k)
      some ((if q < 0 then [45] else []) ++ natTextBytes (m / 10 ^ k) ++ [46]
            ++ List.replicate (k - ds.length) 48 ++ ds)

/-- Two spaces per indentation level. -/
def indentBytes (n : Nat) : List Nat := List.replicate (2 * n) 32

mutual

/-- Modelled from the spec: yyjson_mut_write, whose source is not under
src/. Compact output by default; with the pretty flag, arrays and objects
put each element on its own line with two-space indentation. Fails (none)
on an undefined integer, a non-finite real, or a non-string object key. -/
def writeMut (pretty : Bool) (ind : Nat) (m : YMut) : Option (List Nat) :=
  match m with
  | .mnull => some nullBytes
  | .mbool true => some [116, 114, 117, 101]
  | .mbool false => some [102, 97, 108, 115, 101]
  | .mint none => none
  | .mint (some i) => some (intTextBytes i)
  | .mreal (.finite q) => realTextBytes q
  | .mreal _ => none
  | .mstr bs => some (strTextBytes bs)
  | .marr .nil => some [91, 93]
  | .marr xs =>
      match writeItems pretty (ind + 1) xs with
      | none => none
      | some body =>
          if pretty then some ([91, 10] ++ body ++ [10] ++ indentBytes ind ++ [93])
          else some ([91] ++ body ++ [93])
  | .mobj .nil => some [123, 125]
  | .mobj kvs =>
      match writeEntries pretty (ind + 1) kvs with
      | none => none
      | some body =>
          if pretty then some ([123, 10] ++ body ++ [10] ++ indentBytes ind ++ [125])
          else some ([123] ++ body ++ [125])

/-- Array elements joined with commas (newline-separated when pretty). -/
def writeItems (pretty : Bool) (ind : Nat) (xs : YMList) : Option (List Nat) :=
  match xs with
  | .nil => some []
  | .cons hd .nil =>
      match writeMut pretty ind hd with
      | none => none
      | some t => some ((if pretty then indentBytes ind else []) ++ t)
  | .cons hd tl =>
      match writeMut pretty ind hd, writeItems pretty ind tl with
      | some t, some rest =>
          some ((if pretty then indentBytes ind else []) ++ t
                ++ (if pretty then [44, 10] else [44]) ++ rest)
      | _, _ => none

/-- Object entries joined with commas; keys must be string nodes. -/
def writeEntries (pretty : Bool) (ind : Nat) (kvs : YMKVList) : Option (List Nat) :=
  match kvs with
  | .nil => some []
  | .cons (.mstr ks) v tl =>
      match writeMut pretty ind v with
      | none => none
      | some tv =>
          let entry := (if pretty then indentBytes ind else []) ++ strTextBytes ks
                       ++ (if pretty then [58, 32] else [58]) ++ tv
          match tl with
          | .nil => some entry
          | _ =>
              match writeEntries pretty ind tl with
              | none => none
              | some rest => some (entry ++ (if pretty then [44, 10] else [44]) ++ rest)
  | .cons _ _ _ => none

end

/-- A Janet buffer as the codec observes it: an identity (standing for the
object's address, so the model can state that the very same buffer comes
back), its backing bytes, and the used length count. -/
structure JanetBuffer where
  ident : Nat
  data : List Nat
  count : Nat
deriving DecidableEq, Repr

/-- The live content of a buffer: the first count backing bytes. -/
def bufContents (b : JanetBuffer) : List Nat := b.data.take b.count

/-- janet_buffer_push_cstring / janet_buffer_push_u8 in sequence: append
bytes after the live content and grow the count accordingly. -/
def bufferPushBytes (b : JanetBuffer) (t : List Nat) : JanetBuffer :=
  ⟨b.ident, b.data.take b.count ++ t, b.count + t.length⟩

/-- The identity tag given to a buffer freshly created by janet_optbuffer
when the caller supplied none. -/
def freshIdent : Nat := 0

/-- janet_optbuffer(argv, argc, 2, dflt_len): the caller's buffer when one
was passed, else a new empty buffer (dflt_len is only a capacity hint and
leaves the content empty). -/
def janetOptBuffer (arg : Option JanetBuffer) : JanetBuffer :=
  match arg with
  | some b => b
  | none => ⟨freshIdent, [], 0⟩

/-- json_encode from src/bindings.c: build the document with encode_one at
depth 0, serialise it (pretty when the second argument is truthy), then
append the text to the optional caller buffer and return that buffer.
When the writer itself fails (possible only for undefined cast results
and non-finite reals) the C code passes a NULL pointer to
janet_buffer_push_cstring, which is undefined behaviour; that path is
modelled as a distinct error value. -/
def jsonEncode (x : JanetV) (pretty : Bool) (buf : Option JanetBuffer) :
    Except String JanetBuffer :=
  match encode_one x 0 with
  | .error e => .error ("encode error: " ++ e)
  | .ok root =>
      match writeMut pretty 0 root with
      | none => .error "undefined behaviour: writer returned NULL"
      | some text => .ok (bufferPushBytes (janetOptBuffer buf) text)

/-! Text input, modelled from the spec: the underlying parser reads the
full JSON grammar in its default (non-extension) mode. -/

/-- JSON insignificant whitespace bytes. -/
def isWsByte (b : Nat) : Bool := b == 32 || b == 9 || b == 10 || b == 13

/-- Drop leading whitespace. -/
def skipWs (bs : List Nat) : List Nat := bs.dropWhile isWsByte

/-- ASCII decimal digit test. -/
def isDigitByte (b : Nat) : Bool := 48 ≤ b && b ≤ 57

/-- Split off a maximal run of leading digits. -/
def takeDigits (bs : List Nat) : List Nat × List Nat :=
  (bs.takeWhile isDigitByte, bs.dropWhile isDigitByte)

/-- Value of a digit run. -/
def digitsVal (ds : List Nat) : Nat := ds.foldl (fun a b => a * 10 + (b - 48)) 0

/-- Match a literal byte pattern, returning the rest of the input. -/
def expectBytes : List Nat → List Nat → Option (List Nat)
  | [], bs => some bs
  | p :: ps, b :: bs => if b == p then expectBytes ps bs else none
  | _ :: _, [] => none

/-- Optional exponent part of a JSON number (none on a malformed one,
zero when absent). -/
def parseExp (bs : List Nat) : Option (Int × List Nat) :=
  match bs with
  | e :: tl =>
      if e == 101 || e == 69 then
        let sgn : Int := match tl with | 45 :: _ => -1 | _ => 1
        let tl1 := match tl with | 43 :: r => r | 45 :: r => r | _ => tl
        let (ds, tl2) := takeDigits tl1
        if ds.isEmpty then none else some (sgn * (digitsVal ds : Int), tl2)
      else some (0, bs)
  | [] => some (0, [])

/-- Optional fraction part of a JSON number, as a rational in [0, 1). -/
def parseFrac (bs : List Nat) : Option (ℚ × List Nat) :=
  match bs with
  | 46 :: tl =>
      let (ds, tl2) := takeDigits tl
      if ds.isEmpty then none
      else some (mkRat (digitsVal ds) (10 ^ ds.length), tl2)
  | _ => some (0, bs)

/-- Integer power of ten as a rational. -/
def powTenQ (e : Int) : ℚ :=
  if 0 ≤ e then ((10 ^ e.toNat : Nat) : ℚ) else mkRat 1 (10 ^ (-e).toNat)

/-- Modelled from the spec: JSON number grammar (optional minus, integer
part without leading zeros, optional fraction and exponent), read exactly
as a rational; the double rounding the real parser performs is absorbed
by the exact JNum.finite model. -/
def parseNumber (bs : List Nat) : Option (JNum × List Nat) :=
  let neg : Bool := match bs with | 45 :: _ => true | _ => false
  let bs1 := match bs with | 45 :: tl => tl | _ => bs
  let (ids, bs2) := takeDigits bs1
  match ids with
  | [] => none
  | d0 :: rest =>
      if d0 == 48 && !rest.isEmpty then none
      else
        match parseFrac bs2 with
        | none => none
        | some (fq, bs3) =>
            match parseExp bs3 with
            | none => none
            | some (e, bs4) =>
                let mag := qMul (qAdd (digitsVal ids : ℚ) fq) (powTenQ e)
                some (.finite (if neg then -mag else mag), bs4)

/-- Hexadecimal digit value. -/
def hexVal (b : Nat) : Option Nat :=
  if 48 ≤ b ∧ b ≤ 57 then some (b - 48)
  else if 97 ≤ b ∧ b ≤ 102 then some (b - 87)
  else if 65 ≤ b ∧ b ≤ 70 then some (b - 55)
  else none

/-- Four hexadecimal digits. -/
def parseHex4 (bs : List Nat) : Option (Nat × List Nat) :=
  match bs with
  | a :: b :: c :: d :: tl =>
      match hexVal a, hexVal b, hexVal c, hexVal d with
      | some x, some y, some z, some w => some (((x * 16 + y) * 16 + z) * 16 + w, tl)
      | _, _, _, _ => none
  | _ => none

/-- UTF-8 bytes of a code point. -/
def utf8Encode (c : Nat) : List Nat :=
  if c < 0x80 then [c]
  else if c < 0x800 then [0xC0 + c / 64, 0x80 + c % 64]
  else if c < 0x10000 then [0xE0 + c / 4096, 0x80 + c / 64 % 64, 0x80 + c % 64]
  else [0xF0 + c / 262144, 0x80 + c / 4096 % 64, 0x80 + c / 64 % 64, 0x80 + c % 64]

/-- Modelled from the spec: the body of a JSON string after its opening
quote, with the standard escapes, four-hex-digit escapes and surrogate
pairs; unescaped control bytes and lone surrogates are rejected. The
parser's UTF-8 validation of plain bytes is not modelled. -/
def parseStringBody (fuel : Nat) (bs : List Nat) : Option (List Nat × List Nat) :=
  match fuel with
  | 0 => none
  | fuel + 1 =>
      match bs with
      | [] => none
      | 34 :: tl => some ([], tl)
      | 92 :: esc :: tl =>
          let simple : Option Nat :=
            if esc == 34 then some 34 else if esc == 92 then some 92
            else if esc == 47 then some 47 else if esc == 98 then some 8
            else if esc == 102 then some 12 else if esc == 110 then some 10
            else if esc == 114 then some 13 else if esc == 116 then some 9
            else none
          (match simple with
           | some c =>
               match parseStringBody fuel tl with
               | some (s, r) => some (c :: s, r)
               | none => none
           | none =>
               if esc == 117 then
                 match parseHex4 tl with
                 | none => none
                 | some (c, tl2) =>
                     if 0xD800 ≤ c ∧ c < 0xDC00 then
                       match tl2 with
                       | 92 :: 117 :: tl3 =>
                           (match parseHex4 tl3 with
                            | some (c2, tl4) =>
                                if 0xDC00 ≤ c2 ∧ c2 < 0xE000 then
                                  match parseStringBody fuel tl4 with
                                  | some (s, r) =>
                                      some (utf8Encode (0x10000 + (c - 0xD800) * 1024
                                            + (c2 - 0xDC00)) ++ s, r)
                                  | none => none
                                else none
                            | none => none)
                       | _ => none
                     else if 0xDC00 ≤ c ∧ c < 0xE000 then none
                     else
                       match parseStringBody fuel tl2 with
                       | some (s, r) => some (utf8Encode c ++ s, r)
                       | none => none
               else none)
      | b :: tl =>
          if b < 32 then none
          else
            match parseStringBody fuel tl with
            | some (s, r) => some (b :: s, r)
            | none => none

mutual

/-- Modelled from the spec: one JSON value (null, boolean, string,
number, array or object) with surrounding whitespace handling. Fuel only
bounds the recursion; parseDoc supplies more than any input can use. -/
def parseVal (fuel : Nat) (bs : List Nat) : Option (YVal × List Nat) :=
  match fuel with
  | 0 => none
  | fuel + 1 =>
      match skipWs bs with
      | [] => none
      | 110 :: tl =>
          match expectBytes [117, 108, 108] tl with
          | some r => some (.ynull, r)
          | none => none
      | 116 :: tl =>
          match expectBytes [114, 117, 101] tl with
          | some r => some (.ybool true, r)
          | none => none
      | 102 :: tl =>
          match expectBytes [97, 108, 115, 101] tl with
          | some r => some (.ybool false, r)
          | none => none
      | 34 :: tl =>
          match parseStringBody (tl.length + 1) tl with
          | some (s, r) => some (.ystr s, r)
          | none => none
      | 91 :: tl =>
          (match skipWs tl with
           | 93 :: tl2 => some (.yarr .nil, tl2)
           | _ =>
               match parseArrItems fuel tl with
               | some (xs, r) => some (.yarr xs, r)
               | none => none)
      | 123 :: tl =>
          (match skipWs tl with
           | 125 :: tl2 => some (.yobj .nil, tl2)
           | _ =>
               match parseObjEntries fuel tl with
               | some (kvs, r) => some (.yobj kvs, r)
               | none => none)
      | bs1 =>
          match parseNumber bs1 with
          | some (n, r) => some (.ynum n, r)
          | none => none

/-- Comma-separated array elements up to the closing bracket. -/
def parseArrItems (fuel : Nat) (bs : List Nat) : Option (YVList × List Nat) :=
  match fuel with
  | 0 => none
  | fuel + 1 =>
      match parseVal fuel bs with
      | none => none
      | some (v, r) =>
          match skipWs r with
          | 44 :: r2 =>
              (match parseArrItems fuel r2 with
               | some (xs, rr) => some (.cons v xs, rr)
               | none => none)
          | 93 :: r2 => some (.cons v .nil, r2)
          | _ => none

/-- Comma-separated object entries up to the closing brace. -/
def parseObjEntries (fuel : Nat) (bs : List Nat) : Option (YKVList × List Nat) :=
  match fuel with
  | 0 => none
  | fuel + 1 =>
      match skipWs bs with
      | 34 :: tl =>
          (match parseStringBody (tl.length + 1) tl with
           | none => none
           | some (ks, r) =>
               match skipWs r with
               | 58 :: r2 =>
                   (match parseVal fuel r2 with
                    | none => none
                    | some (v, r3) =>
                        match skipWs r3 with
                        | 44 :: r4 =>
                            (match parseObjEntries fuel r4 with
                             | some (kvs, rr) => some (.cons (.ystr ks) v kvs, rr)
                             | none => none)
                        | 125 :: r4 => some (.cons (.ystr ks) v .nil, r4)
                        | _ => none)
               | _ => none)
      | _ => none

end

/-- Modelled from the spec: yyjson_read over a whole byte region — one
JSON value, optionally surrounded by whitespace, with nothing after it. -/
def parseDoc (input : List Nat) : Option YVal :=
  match parseVal (4 * input.length + 16) input with
  | some (v, rest) => if (skipWs rest).isEmpty then some v else none
  | none => none

/-- How decode flags are packed into the depth word by json_decode. -/
def packFlags (keywords nils : Bool) : Nat :=
  (if keywords then jsonKeywordKey else 0) ||| (if nils then jsonNullToNil else 0)

/-- json_decode from src/bindings.c on a string, keyword or symbol
argument: the parse length is strlen of the byte pointer (the bytes
before the first NUL — Janet byte sequences carry a terminating NUL
after their content), the parsed tree is converted by decode_one with
the packed flags, and conversion errors are prefixed. The position and
message of the underlying parser's report are not modelled. -/
def jsonDecodeBytes (input : List Nat) (keywords nils : Bool) : Except String JanetV :=
  match parseDoc (cstrBytes input) with
  | none => .error "decode error"
  | some root =>
      match decode_one root (packFlags keywords nils) with
      | .error e => .error ("decode error: " ++ e)
      | .ok v => .ok v

/-- json_decode on a buffer argument: a NUL byte is pushed to guarantee a
sentinel and the count is immediately decremented, so the buffer's count
is unchanged while its backing store gains a trailing NUL; the bytes are
then read exactly like the string case. Returns the result together with
the buffer as the call leaves it. -/
def jsonDecodeBuffer (b : JanetBuffer) (keywords nils : Bool) :
    Except String JanetV × JanetBuffer :=
  let b1 : JanetBuffer := ⟨b.ident, b.data.take b.count ++ [0], b.count⟩
  (jsonDecodeBytes b1.data keywords nils, b1)

/-- Encode followed by write-then-read followed by decode, all at the
document-tree level (reparse stands for the serialise/parse pair). -/
def roundtripTree (kw nl : Bool) (v : JanetV) : Option JanetV :=
  match encode_one v 0 with
  | .error _ => none
  | .ok m =>
      match reparse m with
      | none => none
      | some y =>
          match decode_one y (packFlags kw nl) with
          | .error _ => none
          | .ok r => some r

/-- decode(encode(v)) through the entry points and the actual JSON text. -/
def roundtripFull (kw nl : Bool) (v : JanetV) : Except String JanetV :=
  match jsonEncode v false none with
  | .error e => .error e
  | .ok buf => jsonDecodeBytes (bufContents buf) kw nl

/-! Depth and shape measures used to state the recursion-guard and
error-taxonomy claims. -/

/-- Nil test. -/
def isNil (x : JanetV) : Bool :=
  match x with
  | .jnil => true
  | _ => false

mutual

/-- Greatest recursion level decode_one reaches below a node: scalars and
empty containers contribute nothing, array elements and object values sit
one level deeper (object keys are inspected inline, never recursed into). -/
def ydepthD (v : YVal) : Nat :=
  match v with
  | .yarr xs => ydList xs
  | .yobj kvs => ydObj kvs
  | _ => 0

/-- Decode depth over array elements. -/
def ydList (xs : YVList) : Nat :=
  match xs with
  | .nil => 0
  | .cons hd tl => max (1 + ydepthD hd) (ydList tl)

/-- Decode depth over object values. -/
def ydObj (kvs : YKVList) : Nat :=
  match kvs with
  | .nil => 0
  | .cons _ v tl => max (1 + ydepthD v) (ydObj tl)

end

mutual

/-- A parsed tree that triggers neither of decode_one's non-recursion
errors: no unsupported node kind, and every object key a string node. -/
def wfY (v : YVal) : Bool :=
  match v with
  | .ynone => false
  | .yarr xs => wfYList xs
  | .yobj kvs => wfYObj kvs
  | _ => true

/-- Well-formedness over array elements. -/
def wfYList (xs : YVList) : Bool :=
  match xs with
  | .nil => true
  | .cons hd tl => wfY hd && wfYList tl

/-- Well-formedness over object entries. -/
def wfYObj (kvs : YKVList) : Bool :=
  match kvs with
  | .nil => true
  | .cons k v tl =>
      (match k with | .ystr _ => true | _ => false) && wfY v && wfYObj tl

end

mutual

/-- Greatest recursion level encode_one reaches below a value: array and
tuple elements sit one level deeper, and both the key and the value of a
dictionary slot are encoded one level deeper — except slots with a nil
key, which are skipped entirely. -/
def jdepthE (x : JanetV) : Nat :=
  match x with
  | .jtup xs => jdList xs
  | .jarr xs => jdList xs
  | .jtab kvs => jdObj kvs
  | .jstruct kvs => jdObj kvs
  | _ => 0

/-- Encode depth over sequence elements. -/
def jdList (xs : JVList) : Nat :=
  match xs with
  | .nil => 0
  | .cons hd tl => max (1 + jdepthE hd) (jdList tl)

/-- Encode depth over dictionary slots. -/
def jdObj (kvs : JKVList) : Nat :=
  match kvs with
  | .nil => 0
  | .cons k v tl =>
      if isNil k then jdObj tl
      else max (max (1 + jdepthE k) (1 + jdepthE v)) (jdObj tl)

end

mutual

/-- A value that triggers neither of encode_one's non-recursion errors:
no unsupported kind anywhere visited, and every non-nil dictionary key a
byte sequence (values under skipped nil-key slots are never visited). -/
def encShape (x : JanetV) : Bool :=
  match x with
  | .jabstract => false
  | .jtup xs => encShapeList xs
  | .jarr xs => encShapeList xs
  | .jtab kvs => encShapeObj kvs
  | .jstruct kvs => encShapeObj kvs
  | _ => true

/-- Shape over sequence elements. -/
def encShapeList (xs : JVList) : Bool :=
  match xs with
  | .nil => true
  | .cons hd tl => encShape hd && encShapeList tl

/-- Shape over dictionary slots. -/
def encShapeObj (kvs : JKVList) : Bool :=
  match kvs with
  | .nil => true
  | .cons k v tl =>
      if isNil k then encShapeObj tl
      else isByteSeq k && encShape v && encShapeObj tl

end

/-- No key of the slot list is janet-equal to k. -/
def keyNotIn (k : JanetV) (kvs : JKVList) : Bool :=
  match kvs with
  | .nil => true
  | .cons k0 _ tl => !(janetEquals k0 k) && keyNotIn k tl

/-- All keys of the slot list pairwise distinct under janet equality. -/
def keysDistinct (kvs : JKVList) : Bool :=
  match kvs with
  | .nil => true
  | .cons k _ tl => keyNotIn k tl && keysDistinct tl

/-- A number that survives the encode/decode cycle: finite, and when the
integer branch fires, within the range where the int64 cast is defined. -/
def goodNum (n : JNum) : Bool :=
  match n with
  | .finite _ => !(roundEqSelf n) || (doubleToInt64 n).isSome
  | _ => false

/-- A dictionary key of the round-trip fragment: a NUL-free string when
decoding with plain keys, or a NUL-free keyword other than the null
marker when decoding with keyword keys. -/
def goodKeyBytes (kw : Bool) (k : JanetV) : Bool :=
  match kw, k with
  | false, .jstr bs => bs.all (fun b => b != 0)
  | true, .jkey bs => bs.all (fun b => b != 0) && bs != nullBytes
  | _, _ => false

mutual

/-- The fragment of Janet values on which decode(encode v) reproduces v
exactly (decoding with null_to_nil set and keyword_keys equal to kw):
nil, booleans, surviving numbers, NUL-free strings, arrays of such, and
tables with distinct matching keys and non-nil values of such, nested at
most as deep as the recursion guard allows. -/
def goodRT (kw : Bool) (x : JanetV) : Bool :=
  match x with
  | .jnil => true
  | .jbool _ => true
  | .jnum n => goodNum n
  | .jstr bs => bs.all (fun b => b != 0)
  | .jarr xs => goodRTList kw xs
  | .jtab kvs => goodRTObj kw kvs && keysDistinct kvs
  | _ => false

/-- Round-trip fragment over array elements. -/
def goodRTList (kw : Bool) (xs : JVList) : Bool :=
  match xs with
  | .nil => true
  | .cons hd tl => goodRT kw hd && goodRTList kw tl

/-- Round-trip fragment over table slots. -/
def goodRTObj (kw : Bool) (kvs : JKVList) : Bool :=
  match kvs with
  | .nil => true
  | .cons k v tl =>
      goodKeyBytes kw k && goodRT kw v && !(isNil v) && goodRTObj kw tl

end

/-- The slot list with the skipped (nil-key) slots removed. -/
def filterNonNilKeys (kvs : JKVList) : JKVList :=
  match kvs with
  | .nil => .nil
  | .cons k v tl =>
      if isNil k then filterNonNilKeys tl else .cons k v (filterNonNilKeys tl)

/-- Every slot whose key is a byte sequence has both its key and its
value encodable at the given depth (no error from encode_one); slots with
nil keys or non-byte-sequence keys are unconstrained. Hypothesis under
which the invalid-key error is characterised exactly. -/
def pairsClean (kvs : JKVList) (depth : Nat) : Bool :=
  match kvs with
  | .nil => true
  | .cons k v tl =>
      (isNil k || !(isByteSeq k)
        || ((encode_one k depth).isOk && (encode_one v depth).isOk))
      && pairsClean tl depth

/-- Some slot has a key that is neither nil nor byte-sequence-like. -/
def hasBadKey (kvs : JKVList) : Bool :=
  match kvs with
  | .nil => false
  | .cons k _ tl => (!(isNil k) && !(isByteSeq k)) || hasBadKey tl

/-- Some array element sits deeper than the guard allows when its
conversion starts at recursion level l. -/
def anyDeepL (xs : YVList) (l : Nat) : Bool :=
  match xs with
  | .nil => false
  | .cons hd tl => decide (1024 < l + ydepthD hd) || anyDeepL tl l

/-- Some object value sits deeper than the guard allows when its
conversion starts at recursion level l. -/
def anyDeepO (kvs : YKVList) (l : Nat) : Bool :=
  match kvs with
  | .nil => false
  | .cons _ v tl => decide (1024 < l + ydepthD v) || anyDeepO tl l

/-- Some sequence element sits deeper than the guard allows when its
encoding starts at recursion level l. -/
def anyDeepEL (xs : JVList) (l : Nat) : Bool :=
  match xs with
  | .nil => false
  | .cons hd tl => decide (1024 < l + jdepthE hd) || anyDeepEL tl l

/-- Some non-skipped slot has its key or value deeper than the guard
allows when its encoding starts at recursion level l. -/
def anyDeepEO (kvs : JKVList) (l : Nat) : Bool :=
  match kvs with
  | .nil => false
  | .cons k v tl =>
      if isNil k then anyDeepEO tl l
      else decide (1024 < l + jdepthE k) || decide (1024 < l + jdepthE v)
           || anyDeepEO tl l

/-- Append on slot lists. -/
def jkvAppend (a b : JKVList) : JKVList :=
  match a with
  | .nil => b
  | .cons k v tl => .cons k v (jkvAppend tl b)

/-- No key of the first slot list is janet-equal to a key of the second. -/
def allKeysNotIn (kvs acc : JKVList) : Bool :=
  match kvs with
  | .nil => true
  | .cons k _ tl => keyNotIn k acc && allKeysNotIn tl acc

/-- A chain of n nested single-element arrays around null (parsed form),
used to exercise the recursion guard. -/
def nestYArr : Nat → YVal
  | 0 => .ynull
  | n + 1 => .yarr (.cons (nestYArr n) .nil)

/-- A chain of n nested single-element arrays around nil (Janet form). -/
def nestJArr : Nat → JanetV
  | 0 => .jnil
  | n + 1 => .jarr (.cons (nestJArr n) .nil)

/-! Arithmetic of the packed depth word. -/

theorem and_ffff_eq_mod (d : Nat) : d &&& 65535 = d % 65536 := by
  apply Nat.eq_of_testBit_eq
  intro i
  have h1 : Nat.testBit 65535 i = decide (i < 16) := by
    have h : (65535 : Nat) = 2 ^ 16 - 1 := by norm_num
    rw [h, Nat.testBit_two_pow_sub_one]
  have h2 : (65536 : Nat) = 2 ^ 16 := by norm_num
  rw [Nat.testBit_and, h1, h2, Nat.testBit_mod_two_pow, Bool.and_comm]

theorem div65536_succ (d : Nat) (h : d % 65536 < 65535) :
    (d + 1) / 65536 = d / 65536 := by
  conv_lhs => rw [← Nat.div_add_mod d 65536]
  rw [Nat.add_assoc, Nat.mul_add_div (by norm_num)]
  have : (d % 65536 + 1) / 65536 = 0 := Nat.div_eq_of_lt (by omega)
  omega

theorem mod65536_succ (d : Nat) (h : d % 65536 < 65535) :
    (d + 1) % 65536 = d % 65536 + 1 := by
  conv_lhs => rw [← Nat.div_add_mod d 65536]
  rw [Nat.add_assoc, Nat.mul_add_mod]
  exact Nat.mod_eq_of_lt (by omega)

theorem and_ffff_succ (d : Nat) (h : d &&& 65535 < 65535) :
    (d + 1) &&& 65535 = (d &&& 65535) + 1 := by
  rw [and_ffff_eq_mod] at h ⊢
  rw [and_ffff_eq_mod]
  exact mod65536_succ d h

theorem and_bit16_succ (d : Nat) (h : d &&& 65535 < 65535) :
    (d + 1) &&& 65536 = d &&& 65536 := by
  rw [and_ffff_eq_mod] at h
  have h2 : (65536 : Nat) = 2 ^ 16 := by norm_num
  rw [h2, Nat.and_two_pow, Nat.and_two_pow,
      Nat.testBit_to_div_mod, Nat.testBit_to_div_mod]
  have : (d + 1) / 2 ^ 16 = d / 2 ^ 16 := by
    have := div65536_succ d h
    norm_num at this ⊢
    exact this
  rw [this]

theorem and_bit17_succ (d : Nat) (h : d &&& 65535 < 65535) :
    (d + 1) &&& 131072 = d &&& 131072 := by
  rw [and_ffff_eq_mod] at h
  have h2 : (131072 : Nat) = 2 ^ 17 := by norm_num
  rw [h2, Nat.and_two_pow, Nat.and_two_pow,
      Nat.testBit_to_div_mod, Nat.testBit_to_div_mod]
  have hd : (d + 1) / 2 ^ 17 = d / 2 ^ 17 := by
    have h65 := div65536_succ d h
    have e1 : (d + 1) / 2 ^ 17 = (d + 1) / 65536 / 2 := by
      rw [Nat.div_div_eq_div_mul]; norm_num
    have e2 : d / 2 ^ 17 = d / 65536 / 2 := by
      rw [Nat.div_div_eq_div_mul]; norm_num
    rw [e1, e2, h65]
  rw [hd]

theorem and_kw_succ (d : Nat) (h : d &&& 65535 < 65535) :
    (d + 1) &&& jsonKeywordKey = d &&& jsonKeywordKey := and_bit16_succ d h

theorem and_nl_succ (d : Nat) (h : d &&& 65535 < 65535) :
    (d + 1) &&& jsonNullToNil = d &&& jsonNullToNil := and_bit17_succ d h

mutual

theorem decode_one_refines (root : YVal) (d : Nat) :
    decode_one root d
      = decodeSpec (d &&& jsonKeywordKey != 0) (d &&& jsonNullToNil != 0) root
          (d &&& 65535) := by
  by_cases hg : 1024 < d &&& 65535
  · unfold decode_one decodeSpec
    simp only [janetRecursionGuard]
    rw [if_pos hg, if_pos hg]
  · have hlt : d &&& 65535 < 65535 := by
      have := Nat.not_lt.mp hg; omega
    have hg2 : ¬ d &&& 65535 > janetRecursionGuard := hg
    cases root with
    | ynone => unfold decode_one decodeSpec; rw [if_neg hg2]
    | ynull => unfold decode_one decodeSpec; rw [if_neg hg2]
    | ybool b => unfold decode_one decodeSpec; rw [if_neg hg2]
    | ynum n => unfold decode_one decodeSpec; rw [if_neg hg2]
    | ystr bs => unfold decode_one decodeSpec; rw [if_neg hg2]
    | yarr xs =>
        have hx := decodeList_refines xs (d + 1)
        rw [and_kw_succ d hlt, and_nl_succ d hlt, and_ffff_succ d hlt] at hx
        unfold decode_one decodeSpec
        rw [if_neg hg2]
        change (match decodeList xs (d + 1) with
                | Except.error e => Except.error e
                | Except.ok l => Except.ok (JanetV.jarr l)) = _
        rw [hx, if_neg hg2]
    | yobj kvs =>
        have hx := decodeObj_refines kvs d JKVList.nil (Nat.not_lt.mp hg)
        unfold decode_one decodeSpec
        rw [if_neg hg2]
        change (match decodeObj kvs d JKVList.nil with
                | Except.error e => Except.error e
                | Except.ok t => Except.ok (JanetV.jtab t)) = _
        rw [hx, if_neg hg2]

theorem decodeList_refines (xs : YVList) (d : Nat) :
    decodeList xs d
      = decodeSpecList (d &&& jsonKeywordKey != 0) (d &&& jsonNullToNil != 0) xs
          (d &&& 65535) := by
  cases xs with
  | nil => rfl
  | cons hd tl =>
      change (match decode_one hd d with
              | Except.error e => Except.error e
              | Except.ok v =>
                  match decodeList tl d with
                  | Except.error e => Except.error e
                  | Except.ok l => Except.ok (JVList.cons v l)) = _
      rw [decode_one_refines hd d, decodeList_refines tl d]
      exact rfl

theorem decodeObj_refines (kvs : YKVList) (d : Nat) (acc : JKVList)
    (hle : d &&& 65535 ≤ 1024) :
    decodeObj kvs d acc
      = decodeSpecObj (d &&& jsonKeywordKey != 0) (d &&& jsonNullToNil != 0) kvs
          (d &&& 65535) acc := by
  have hlt : d &&& 65535 < 65535 := by omega
  cases kvs with
  | nil => rfl
  | cons k v tl =>
      cases k with
      | ystr ks =>
          have hv := decode_one_refines v (d + 1)
          rw [and_kw_succ d hlt, and_nl_succ d hlt, and_ffff_succ d hlt] at hv
          change (match decode_one v (d + 1) with
                  | Except.error e => Except.error e
                  | Except.ok sv =>
                      decodeObj tl d
                        (tablePut acc
                          (if (d &&& jsonKeywordKey != 0) = true
                           then JanetV.jkey (cstrBytes ks)
                           else JanetV.jstr (cstrBytes ks)) sv))
            = (match decodeSpec (d &&& jsonKeywordKey != 0) (d &&& jsonNullToNil != 0) v
                  ((d &&& 65535) + 1) with
               | Except.error e => Except.error e
               | Except.ok sv =>
                   decodeSpecObj (d &&& jsonKeywordKey != 0) (d &&& jsonNullToNil != 0) tl
                     (d &&& 65535)
                     (tablePut acc
                       (if (d &&& jsonKeywordKey != 0) = true
                        then JanetV.jkey (cstrBytes ks)
                        else JanetV.jstr (cstrBytes ks)) sv))
          rw [hv]
          cases decodeSpec (d &&& jsonKeywordKey != 0) (d &&& jsonNullToNil != 0) v
              ((d &&& 65535) + 1) with
          | error e => rfl
          | ok sv => exact decodeObj_refines tl d _ hle
      | ynone => rfl
      | ynull => rfl
      | ybool b => rfl
      | ynum n => rfl
      | yarr xs2 => rfl
      | yobj kvs2 => rfl

end

/-- Decidable equality for Except results, used to evaluate the codec on
concrete inputs inside proofs. -/
instance exceptDecEq {α β : Type} [DecidableEq α] [DecidableEq β] :
    DecidableEq (Except α β) := fun a b =>
  match a, b with
  | .error x, .error y =>
      if h : x = y then isTrue (by rw [h]) else isFalse (by simp [h])
  | .ok x, .ok y =>
      if h : x = y then isTrue (by rw [h]) else isFalse (by simp [h])
  | .error _, .ok _ => isFalse (by simp)
  | .ok _, .error _ => isFalse (by simp)

/-- C3: for every decode call, the keyword_keys and null_to_nil flags act
at every nesting depth, not just the top level: decoding with the packed
flag word coincides with the spec decoder that threads both policies
explicitly through the whole recursion; concretely, null decodes to the
:null keyword by default and to nil under null_to_nil even two levels
down, and object keys become keywords under keyword_keys even in a nested
object, while a top-level object key stays a plain string by default. -/
theorem claim_c3 :
    (∀ (root : YVal) (keywords nils : Bool),
        decode_one root (packFlags keywords nils) = decodeSpec keywords nils root 0)
    ∧ jsonDecodeBytes [110, 117, 108, 108] false false = .ok (.jkey nullBytes)
    ∧ jsonDecodeBytes [110, 117, 108, 108] false true = .ok .jnil
    ∧ jsonDecodeBytes [91, 91, 110, 117, 108, 108, 93, 93] false true
        = .ok (.jarr (.cons (.jarr (.cons .jnil .nil)) .nil))
    ∧ jsonDecodeBytes [91, 91, 110, 117, 108, 108, 93, 93] false false
        = .ok (.jarr (.cons (.jarr (.cons (.jkey nullBytes) .nil)) .nil))
    ∧ jsonDecodeBytes [123, 34, 97, 34, 58, 49, 125] false false
        = .ok (.jtab (.cons (.jstr [97]) (.jnum (.finite 1)) .nil))
    ∧ jsonDecodeBytes [123, 34, 97, 34, 58, 123, 34, 98, 34, 58, 49, 125, 125] true false
        = .ok (.jtab (.cons (.jkey [97])
            (.jtab (.cons (.jkey [98]) (.jnum (.finite 1)) .nil)) .nil)) := by
  refine ⟨?_, by decide, by decide, by decide, by decide, by decide, by decide⟩
  intro root kw nl
  have h := decode_one_refines root (packFlags kw nl)
  cases kw <;> cases nl <;> simpa [packFlags, jsonKeywordKey, jsonNullToNil] using h

/-! Facts about rounding and truncation used by the number claims. -/

theorem ratTrunc_den_one (q : ℚ) (h : q.den = 1) : ratTrunc q = q.num := by
  unfold ratTrunc ratFloor
  by_cases h0 : 0 ≤ q
  · rw [if_pos h0, h]; simp
  · rw [if_neg h0, Rat.neg_num, Rat.neg_den, h]; simp

theorem roundEq_den_one (q : ℚ) (h : roundEqSelf (.finite q) = true) : q.den = 1 := by
  have h2 : (cround q : ℚ) = q := by
    have : ((cround q : ℚ) == q) = true := h
    exact beq_iff_eq.mp this
  rw [← h2, Rat.intCast_den]

/-- C2 counterexample: encoding the literal string value whose bytes are
the ASCII text null yields the quoted six-byte JSON string (34 is the
quote byte), not the four-byte JSON token null; at the tree level the
built node is a string node, not the null node. -/
theorem claim_c2_counterexample :
    jsonEncode (.jstr nullBytes) false none
        = .ok ⟨freshIdent, [34, 110, 117, 108, 108, 34], 6⟩
    ∧ encode_one (.jstr nullBytes) 0 = .ok (.mstr nullBytes)
    ∧ YMut.mstr nullBytes ≠ YMut.mnull := by
  exact ⟨by decide, by decide, by decide⟩

/-- C2 (amended): the null-spelling escape hatch applies to keywords only
— janet_keyeq(x, "null") checks the keyword type — so a keyword whose
bytes are the text null is emitted as the JSON token null, while a
string, symbol or buffer with those same bytes is emitted as an ordinary
JSON string; through the entry point the keyword produces exactly the
token text. -/
theorem claim_c2 :
    (∀ d : Nat, d &&& 65535 ≤ 1024 →
        encode_one (.jkey nullBytes) d = .ok .mnull
        ∧ encode_one (.jstr nullBytes) d = .ok (.mstr nullBytes)
        ∧ encode_one (.jsym nullBytes) d = .ok (.mstr nullBytes)
        ∧ encode_one (.jbuf nullBytes) d = .ok (.mstr nullBytes))
    ∧ jsonEncode (.jkey nullBytes) false none = .ok ⟨freshIdent, nullBytes, 4⟩ := by
  constructor
  · intro d hd
    have hg2 : ¬ d &&& 65535 > janetRecursionGuard := by
      simp only [janetRecursionGuard]; omega
    refine ⟨?_, ?_, ?_, ?_⟩ <;> ((unfold encode_one; rw [if_neg hg2]) <;> exact rfl)
  · decide

/-- C2 witness: the amended statement evaluated at depth 0. -/
theorem claim_c2_witness :
    encode_one (.jkey nullBytes) 0 = .ok .mnull
    ∧ encode_one (.jstr nullBytes) 0 = .ok (.mstr nullBytes) :=
  ⟨(claim_c2.1 0 (by decide)).1, (claim_c2.1 0 (by decide)).2.1⟩

/-- C4: a number value goes to the integer-typed node exactly when the C
comparison round(x) == x holds (the branch carries the int64 cast), and
to the floating-point node otherwise; when the branch fires and the value
fits in a signed 64-bit integer the stored integer is exactly the number
(full 64-bit precision, no float rounding); encoding 3.0 produces the
literal text 3 and encoding 3.5 produces 3.5. -/
theorem claim_c4 :
    (∀ (n : JNum) (d : Nat), d &&& 65535 ≤ 1024 →
        encode_one (.jnum n) d
          = .ok (if roundEqSelf n then .mint (doubleToInt64 n) else .mreal n))
    ∧ (∀ q : ℚ, roundEqSelf (.finite q) = true →
        q.den = 1
        ∧ (-(2 ^ 63) ≤ q.num → q.num < 2 ^ 63
            → doubleToInt64 (.finite q) = some q.num))
    ∧ jsonEncode (.jnum (.finite 3)) false none = .ok ⟨freshIdent, [51], 1⟩
    ∧ jsonEncode (.jnum (.finite (mkRat 7 2))) false none
        = .ok ⟨freshIdent, [51, 46, 53], 3⟩ := by
  refine ⟨?_, ?_, by decide, by decide⟩
  · intro n d hd
    have hg2 : ¬ d &&& 65535 > janetRecursionGuard := by
      simp only [janetRecursionGuard]; omega
    unfold encode_one
    rw [if_neg hg2]
    cases hr : roundEqSelf n <;> simp [hr]
  · intro q hr
    have hden : q.den = 1 := roundEq_den_one q hr
    refine ⟨hden, ?_⟩
    intro h1 h2
    unfold doubleToInt64
    change (if -2 ^ 63 ≤ ratTrunc q ∧ ratTrunc q < 2 ^ 63
            then some (ratTrunc q) else none) = some q.num
    rw [ratTrunc_den_one q hden, if_pos ⟨h1, h2⟩]

/-- C4 witness: both universally quantified parts evaluated at concrete
inputs (the number 3 at depth 0). -/
theorem claim_c4_witness :
    encode_one (.jnum (.finite 3)) 0
        = .ok (if roundEqSelf (.finite 3)
               then .mint (doubleToInt64 (.finite 3))
               else .mreal (.finite 3))
    ∧ doubleToInt64 (.finite 3) = some (3 : ℚ).num :=
  ⟨claim_c4.1 (.finite 3) 0 (by decide),
   (claim_c4.2.1 3 (by decide)).2 (by decide) (by decide)⟩

/-- C10: encode_one never rejects non-finite numbers: NaN fails the
round(x) == x comparison and lands on the floating-point branch, while
each infinity passes it and goes through the unguarded double-to-int64
cast, whose result the C standard leaves undefined (the none payload);
none of the three produces an error at the conversion step. -/
theorem claim_c10 :
    roundEqSelf .nan = false
    ∧ roundEqSelf .inf = true
    ∧ roundEqSelf .neginf = true
    ∧ doubleToInt64 .inf = none
    ∧ doubleToInt64 .neginf = none
    ∧ (∀ d : Nat, d &&& 65535 ≤ 1024 →
        encode_one (.jnum .nan) d = .ok (.mreal .nan)
        ∧ encode_one (.jnum .inf) d = .ok (.mint none)
        ∧ encode_one (.jnum .neginf) d = .ok (.mint none)) := by
  refine ⟨rfl, rfl, rfl, rfl, rfl, ?_⟩
  intro d hd
  have hg2 : ¬ d &&& 65535 > janetRecursionGuard := by
    simp only [janetRecursionGuard]; omega
  refine ⟨?_, ?_, ?_⟩ <;> ((unfold encode_one; rw [if_neg hg2]) <;> exact rfl)

/-- C10 witness: the quantified part evaluated at depth 0. -/
theorem claim_c10_witness :
    encode_one (.jnum .nan) 0 = .ok (.mreal .nan)
    ∧ encode_one (.jnum .inf) 0 = .ok (.mint none) :=
  ⟨(claim_c10.2.2.2.2.2 0 (by decide)).1, (claim_c10.2.2.2.2.2 0 (by decide)).2.1⟩

/-- C8: a byte-sequence value with an interior NUL byte is handed to the
JSON builder as a NUL-terminated C string, so the emitted string node
holds only the bytes before the first NUL — a strict truncation of the
original content, which therefore does not survive encoding. -/
theorem claim_c8 :
    ∀ (bs : List Nat) (d : Nat), d &&& 65535 ≤ 1024 → 0 ∈ bs →
      encode_one (.jstr bs) d = .ok (.mstr (cstrBytes bs))
      ∧ encode_one (.jsym bs) d = .ok (.mstr (cstrBytes bs))
      ∧ encode_one (.jkey bs) d = .ok (.mstr (cstrBytes bs))
      ∧ encode_one (.jbuf bs) d = .ok (.mstr (cstrBytes bs))
      ∧ cstrBytes bs ≠ bs := by
  intro bs d hd hmem
  have hg2 : ¬ d &&& 65535 > janetRecursionGuard := by
    simp only [janetRecursionGuard]; omega
  have hne : bs ≠ nullBytes := by
    intro h
    rw [h] at hmem
    simp [nullBytes] at hmem
  have hkeq : janetKeyeqNull (.jkey bs) = false := by
    have : (bs == nullBytes) = false := beq_eq_false_iff_ne.mpr hne
    simpa [janetKeyeqNull] using this
  refine ⟨?_, ?_, ?_, ?_, ?_⟩
  · (unfold encode_one; rw [if_neg hg2]) <;> exact rfl
  · (unfold encode_one; rw [if_neg hg2]) <;> exact rfl
  · unfold encode_one
    rw [if_neg hg2]
    change (if janetKeyeqNull (.jkey bs) = true then Except.ok YMut.mnull
            else Except.ok (YMut.mstr (cstrBytes bs))) = _
    rw [hkeq]
    simp
  · (unfold encode_one; rw [if_neg hg2]) <;> exact rfl
  · intro h
    have hall := List.takeWhile_eq_self_iff.mp h
    have := hall 0 hmem
    simp at this

/-- C8 witness: the statement evaluated on the bytes a, NUL, b at depth 0. -/
theorem claim_c8_witness :
    encode_one (.jstr [97, 0, 98]) 0 = .ok (.mstr (cstrBytes [97, 0, 98]))
    ∧ cstrBytes [97, 0, 98] ≠ [97, 0, 98] :=
  ⟨(claim_c8 [97, 0, 98] 0 (by decide) (by decide)).1,
   (claim_c8 [97, 0, 98] 0 (by decide) (by decide)).2.2.2.2⟩

/-! Facts about the dictionary slot loop of encode_one, used by C6. -/

theorem isNil_iff (k : JanetV) : isNil k = true ↔ k = JanetV.jnil := by
  cases k <;> simp [isNil]

theorem encodeObj_filter (kvs : JKVList) (d : Nat) :
    encodeObj kvs d = encodeObj (filterNonNilKeys kvs) d := by
  cases kvs with
  | nil => rfl
  | cons k v tl =>
      by_cases hk : k = JanetV.jnil
      · subst hk
        change encodeObj tl d = encodeObj (filterNonNilKeys tl) d
        exact encodeObj_filter tl d
      · have hisNil : isNil k = false := by
          rw [← Bool.not_eq_true]
          intro h
          exact hk ((isNil_iff k).mp h)
        have hf : filterNonNilKeys (.cons k v tl)
            = .cons k v (filterNonNilKeys tl) := by
          show (if isNil k = true then filterNonNilKeys tl
                else JKVList.cons k v (filterNonNilKeys tl)) = _
          rw [hisNil]
          simp
        rw [hf]
        show (if k = JanetV.jnil then encodeObj tl d
              else if !(isByteSeq k) then .error "object key must be a byte sequence"
              else match encode_one k d with
                   | .error e => .error e
                   | .ok sk =>
                       match encode_one v d with
                       | .error e => .error e
                       | .ok sv =>
                           match encodeObj tl d with
                           | .error e => .error e
                           | .ok rest => .ok (mutObjAdd sk sv rest))
           = (if k = JanetV.jnil then encodeObj (filterNonNilKeys tl) d
              else if !(isByteSeq k) then .error "object key must be a byte sequence"
              else match encode_one k d with
                   | .error e => .error e
                   | .ok sk =>
                       match encode_one v d with
                       | .error e => .error e
                       | .ok sv =>
                           match encodeObj (filterNonNilKeys tl) d with
                           | .error e => .error e
                           | .ok rest => .ok (mutObjAdd sk sv rest))
        rw [encodeObj_filter tl d]

theorem encodeObj_badkey (kvs : JKVList) (d : Nat) (hc : pairsClean kvs d = true) :
    encodeObj kvs d = .error "object key must be a byte sequence"
      ↔ hasBadKey kvs = true := by
  cases kvs with
  | nil =>
      constructor
      · intro h; exact absurd h (by simp [encodeObj])
      · intro h; exact absurd h (by simp [hasBadKey])
  | cons k v tl =>
      have hc' := hc
      unfold pairsClean at hc'
      rw [Bool.and_eq_true] at hc'
      obtain ⟨hc1, hc2⟩ := hc'
      by_cases hk : k = JanetV.jnil
      · subst hk
        have hL : encodeObj (JKVList.cons JanetV.jnil v tl) d = encodeObj tl d := rfl
        have hR : hasBadKey (JKVList.cons JanetV.jnil v tl) = hasBadKey tl := by
          simp [hasBadKey, isNil]
        rw [hL, hR]
        exact encodeObj_badkey tl d hc2
      · have hisNil : isNil k = false := by
          rw [← Bool.not_eq_true]
          intro h
          exact hk ((isNil_iff k).mp h)
        by_cases hb : isByteSeq k = true
        · have hok : (encode_one k d).isOk && (encode_one v d).isOk = true := by
            rw [hisNil, hb] at hc1
            simpa using hc1
          rw [Bool.and_eq_true] at hok
          obtain ⟨hok1, hok2⟩ := hok
          have hR : hasBadKey (JKVList.cons k v tl) = hasBadKey tl := by
            simp [hasBadKey, hisNil, hb]
          rw [hR]
          have hstep : encodeObj (JKVList.cons k v tl) d
              = (match encodeObj tl d with
                 | .error e => .error e
                 | .ok rest =>
                     .ok (mutObjAdd ((encode_one k d).toOption.getD .mnull)
                           ((encode_one v d).toOption.getD .mnull) rest)) := by
            show (if k = JanetV.jnil then encodeObj tl d
                  else if !(isByteSeq k) then .error "object key must be a byte sequence"
                  else match encode_one k d with
                       | .error e => .error e
                       | .ok sk =>
                           match encode_one v d with
                           | .error e => .error e
                           | .ok sv =>
                               match encodeObj tl d with
                               | .error e => .error e
                               | .ok rest => .ok (mutObjAdd sk sv rest)) = _
            rw [if_neg hk, hb]
            cases hek : encode_one k d with
            | error e => rw [hek] at hok1; exact absurd hok1 (by simp [Except.isOk, Except.toBool])
            | ok sk =>
                cases hev : encode_one v d with
                | error e => rw [hev] at hok2; exact absurd hok2 (by simp [Except.isOk, Except.toBool])
                | ok sv => simp [Except.toOption]
          rw [hstep]
          have htl := encodeObj_badkey tl d hc2
          cases hrest : encodeObj tl d with
          | error e => simpa [hrest] using htl
          | ok rest => simpa [hrest] using htl
        · have hbf : isByteSeq k = false := by
            rw [← Bool.not_eq_true]; exact hb
          have hL : encodeObj (JKVList.cons k v tl) d
              = .error "object key must be a byte sequence" := by
            show (if k = JanetV.jnil then encodeObj tl d
                  else if !(isByteSeq k) then .error "object key must be a byte sequence"
                  else match encode_one k d with
                       | .error e => .error e
                       | .ok sk =>
                           match encode_one v d with
                           | .error e => .error e
                           | .ok sv =>
                               match encodeObj tl d with
                               | .error e => .error e
                               | .ok rest => .ok (mutObjAdd sk sv rest)) = _
            rw [if_neg hk, hbf]
            simp
          have hR : hasBadKey (JKVList.cons k v tl) = true := by
            simp [hasBadKey, hisNil, hbf]
          rw [hL, hR]
          simp

/-- C6: pairs whose key is nil are skipped (encoding a table or struct
coincides with encoding it after dropping those slots); under the natural
cleanliness hypothesis (every byte-sequence-keyed slot encodes without
error) the invalid-key error is raised exactly when some non-nil key is
not byte-sequence-like; in particular any mapping whose first slot has a
number key raises it at once. -/
theorem claim_c6 :
    (∀ (kvs : JKVList) (d : Nat),
        encode_one (.jtab kvs) d = encode_one (.jtab (filterNonNilKeys kvs)) d
        ∧ encode_one (.jstruct kvs) d = encode_one (.jstruct (filterNonNilKeys kvs)) d)
    ∧ (∀ (kvs : JKVList) (d : Nat), d &&& 65535 ≤ 1024 → pairsClean kvs (d + 1) = true →
        ((encode_one (.jtab kvs) d = .error "object key must be a byte sequence"
            ↔ hasBadKey kvs = true)
         ∧ (encode_one (.jstruct kvs) d = .error "object key must be a byte sequence"
            ↔ hasBadKey kvs = true)))
    ∧ (∀ (n : JNum) (v : JanetV) (tl : JKVList) (d : Nat), d &&& 65535 ≤ 1024 →
        encode_one (.jtab (.cons (.jnum n) v tl)) d
          = .error "object key must be a byte sequence") := by
  have lift_tab : ∀ (kvs : JKVList) (d : Nat),
      encode_one (.jtab kvs) d
        = (if d &&& 65535 > janetRecursionGuard then .error "recursed too deeply"
           else match encodeObj kvs (d + 1) with
                | .error e => .error e
                | .ok o => .ok (.mobj o)) := fun kvs d => rfl
  have lift_struct : ∀ (kvs : JKVList) (d : Nat),
      encode_one (.jstruct kvs) d
        = (if d &&& 65535 > janetRecursionGuard then .error "recursed too deeply"
           else match encodeObj kvs (d + 1) with
                | .error e => .error e
                | .ok o => .ok (.mobj o)) := fun kvs d => rfl
  refine ⟨?_, ?_, ?_⟩
  · intro kvs d
    constructor
    · rw [lift_tab, lift_tab, encodeObj_filter kvs (d + 1)]
    · rw [lift_struct, lift_struct, encodeObj_filter kvs (d + 1)]
  · intro kvs d hd hclean
    have hg2 : ¬ d &&& 65535 > janetRecursionGuard := by
      simp only [janetRecursionGuard]; omega
    have hiff := encodeObj_badkey kvs (d + 1) hclean
    constructor
    · rw [lift_tab, if_neg hg2]
      cases ho : encodeObj kvs (d + 1) with
      | error e => simpa [ho] using hiff
      | ok o => simpa [ho] using hiff
    · rw [lift_struct, if_neg hg2]
      cases ho : encodeObj kvs (d + 1) with
      | error e => simpa [ho] using hiff
      | ok o => simpa [ho] using hiff
  · intro n v tl d hd
    have hg2 : ¬ d &&& 65535 > janetRecursionGuard := by
      simp only [janetRecursionGuard]; omega
    rw [lift_tab, if_neg hg2]
    exact rfl

/-- C6 witness: a table whose single slot has the number key 1 and value
true raises the invalid-key error at depth 0, and the iff part evaluated
there agrees. -/
theorem claim_c6_witness :
    encode_one (.jtab (.cons (.jnum (.finite 1)) (.jbool true) .nil)) 0
      = .error "object key must be a byte sequence" :=
  claim_c6.2.2 (.finite 1) (.jbool true) .nil 0 (by decide)

/-- C7: when a sink is supplied, the JSON text is appended after its
pre-existing content — the result is the same buffer identity with the
old content as a prefix followed by exactly the text a fresh run would
produce — and when no sink is supplied the returned buffer is the newly
created one. -/
theorem claim_c7 :
    (∀ (x : JanetV) (p : Bool) (b : JanetBuffer) (t : JanetBuffer),
        jsonEncode x p none = .ok t →
          jsonEncode x p (some b)
            = .ok ⟨b.ident, bufContents b ++ bufContents t, b.count + t.count⟩)
    ∧ (∀ (x : JanetV) (p : Bool) (t : JanetBuffer),
        jsonEncode x p none = .ok t → t.ident = freshIdent) := by
  constructor
  · intro x p b t h
    unfold jsonEncode at h ⊢
    cases he : encode_one x 0 with
    | error e => rw [he] at h; exact absurd h (by simp)
    | ok root =>
        rw [he] at h
        dsimp only at h ⊢
        cases hw : writeMut p 0 root with
        | none => rw [hw] at h; exact absurd h (by simp)
        | some text =>
            rw [hw] at h
            dsimp only at h ⊢
            have ht : t = bufferPushBytes (janetOptBuffer none) text := by
              injection h with h'
              exact h'.symm
            subst ht
            simp [janetOptBuffer, bufferPushBytes, bufContents]
  · intro x p t h
    unfold jsonEncode at h
    cases he : encode_one x 0 with
    | error e => rw [he] at h; exact absurd h (by simp)
    | ok root =>
        rw [he] at h
        dsimp only at h
        cases hw : writeMut p 0 root with
        | none => rw [hw] at h; exact absurd h (by simp)
        | some text =>
            rw [hw] at h
            dsimp only at h
            have ht : t = bufferPushBytes (janetOptBuffer none) text := by
              injection h with h'
              exact h'.symm
            subst ht
            rfl

/-- C7 witness: appending to a pre-populated two-byte buffer with
identity 5 keeps its identity and content and appends the text true. -/
theorem claim_c7_witness :
    jsonEncode (.jbool true) false (some ⟨5, [120, 121], 2⟩)
      = .ok ⟨5, [120, 121, 116, 114, 117, 101], 6⟩ := by
  have h : jsonEncode (.jbool true) false none
      = .ok ⟨0, [116, 114, 117, 101], 4⟩ := by decide
  have h2 := claim_c7.1 (.jbool true) false ⟨5, [120, 121], 2⟩ _ h
  rw [h2]
  decide

/-! Reading a byte region as a C string ignores everything after the
first NUL; facts for C9. -/

theorem cstr_idem (input : List Nat) :
    cstrBytes (List.takeWhile (fun b => b != 0) input) = cstrBytes input := by
  unfold cstrBytes
  rw [List.takeWhile_takeWhile]
  congr 1
  funext a
  cases h : (a != 0) <;> simp [h]

theorem cstr_append_zero (a : List Nat) : cstrBytes (a ++ [0]) = cstrBytes a := by
  unfold cstrBytes
  rw [List.takeWhile_append]
  by_cases h : (List.takeWhile (fun b => b != 0) a).length = a.length
  · rw [if_pos h]
    have ha : List.takeWhile (fun b => b != 0) a = a :=
      (List.takeWhile_prefix _).eq_of_length h
    rw [ha]
    simp
  · rw [if_neg h]

/-- C9: decode reads its input through strlen, so only the bytes before
the first NUL are parsed — decoding any input equals decoding its
before-first-NUL prefix, and trailing bytes after a NUL are ignored
rather than reported as a parse error (the concrete input true, NUL,
garbage decodes to true); on a buffer argument the count is unchanged and
the live content is preserved even though a NUL sentinel lands in the
backing store, and the result is exactly that of decoding the content. -/
theorem claim_c9 :
    (∀ (input : List Nat) (kw nl : Bool),
        jsonDecodeBytes input kw nl
          = jsonDecodeBytes (List.takeWhile (fun b => b != 0) input) kw nl)
    ∧ (∀ (b : JanetBuffer) (kw nl : Bool), b.count ≤ b.data.length →
        ((jsonDecodeBuffer b kw nl).2.count = b.count
         ∧ bufContents (jsonDecodeBuffer b kw nl).2 = bufContents b
         ∧ (jsonDecodeBuffer b kw nl).1 = jsonDecodeBytes (bufContents b) kw nl))
    ∧ jsonDecodeBytes [116, 114, 117, 101, 0, 120, 121] false false
        = .ok (.jbool true) := by
  refine ⟨?_, ?_, by decide⟩
  · intro input kw nl
    unfold jsonDecodeBytes
    rw [cstr_idem]
  · intro b kw nl hcnt
    refine ⟨rfl, ?_, ?_⟩
    · show (b.data.take b.count ++ [0]).take b.count = b.data.take b.count
      have hlen : (b.data.take b.count).length = b.count := by
        rw [List.length_take]
        omega
      rw [List.take_append_of_le_length (by omega), List.take_take]
      simp
    · show jsonDecodeBytes (b.data.take b.count ++ [0]) kw nl
        = jsonDecodeBytes (b.data.take b.count) kw nl
      unfold jsonDecodeBytes
      rw [cstr_append_zero]

/-- C9 witness: a buffer holding the bytes of true plus a junk capacity
byte, with count 4, decodes to true, keeps count 4 and keeps its
content. -/
theorem claim_c9_witness :
    (jsonDecodeBuffer ⟨3, [116, 114, 117, 101, 99], 4⟩ false false).2.count = 4
    ∧ (jsonDecodeBuffer ⟨3, [116, 114, 117, 101, 99], 4⟩ false false).1
        = jsonDecodeBytes (bufContents ⟨3, [116, 114, 117, 101, 99], 4⟩) false false := by
  have h := claim_c9.2.1 ⟨3, [116, 114, 117, 101, 99], 4⟩ false false (by decide)
  exact ⟨h.1, h.2.2⟩

/-! Arithmetic characterisations of the deep-nesting tests, for C5. -/

theorem lt_add_max_iff (c l a b : Nat) : c < l + max a b ↔ c < l + a ∨ c < l + b := by
  rcases Nat.le_total a b with h | h
  · rw [Nat.max_eq_right h]; omega
  · rw [Nat.max_eq_left h]; omega

theorem anyL_iff (xs : YVList) (l : Nat) (hl : l ≤ 1024) :
    anyDeepL xs (l + 1) = true ↔ 1024 < l + ydList xs := by
  cases xs with
  | nil => simp [anyDeepL, ydList]; omega
  | cons hd tl =>
      have ih := anyL_iff tl l hl
      show (decide (1024 < l + 1 + ydepthD hd) || anyDeepL tl (l + 1)) = true
        ↔ 1024 < l + max (1 + ydepthD hd) (ydList tl)
      rw [Bool.or_eq_true, decide_eq_true_iff, ih, lt_add_max_iff]
      omega

theorem anyO_iff (kvs : YKVList) (l : Nat) (hl : l ≤ 1024) :
    anyDeepO kvs (l + 1) = true ↔ 1024 < l + ydObj kvs := by
  cases kvs with
  | nil => simp [anyDeepO, ydObj]; omega
  | cons k v tl =>
      have ih := anyO_iff tl l hl
      show (decide (1024 < l + 1 + ydepthD v) || anyDeepO tl (l + 1)) = true
        ↔ 1024 < l + max (1 + ydepthD v) (ydObj tl)
      rw [Bool.or_eq_true, decide_eq_true_iff, ih, lt_add_max_iff]
      omega

theorem anyEL_iff (xs : JVList) (l : Nat) (hl : l ≤ 1024) :
    anyDeepEL xs (l + 1) = true ↔ 1024 < l + jdList xs := by
  cases xs with
  | nil => simp [anyDeepEL, jdList]; omega
  | cons hd tl =>
      have ih := anyEL_iff tl l hl
      show (decide (1024 < l + 1 + jdepthE hd) || anyDeepEL tl (l + 1)) = true
        ↔ 1024 < l + max (1 + jdepthE hd) (jdList tl)
      rw [Bool.or_eq_true, decide_eq_true_iff, ih, lt_add_max_iff]
      omega

theorem anyEO_iff (kvs : JKVList) (l : Nat) (hl : l ≤ 1024) :
    anyDeepEO kvs (l + 1) = true ↔ 1024 < l + jdObj kvs := by
  cases kvs with
  | nil => simp [anyDeepEO, jdObj]; omega
  | cons k v tl =>
      have ih := anyEO_iff tl l hl
      by_cases hk : isNil k = true
      · have h1 : anyDeepEO (.cons k v tl) (l + 1) = anyDeepEO tl (l + 1) := by
          simp only [anyDeepEO]; rw [if_pos hk]
        have h2 : jdObj (.cons k v tl) = jdObj tl := by
          simp only [jdObj]; rw [if_pos hk]
        rw [h1, h2, ih]
      · have h1 : anyDeepEO (.cons k v tl) (l + 1)
            = (decide (1024 < l + 1 + jdepthE k) || decide (1024 < l + 1 + jdepthE v)
               || anyDeepEO tl (l + 1)) := by
          simp only [anyDeepEO]; rw [if_neg hk]
        have h2 : jdObj (.cons k v tl)
            = max (max (1 + jdepthE k) (1 + jdepthE v)) (jdObj tl) := by
          simp only [jdObj]; rw [if_neg hk]
        rw [h1, h2, Bool.or_eq_true, Bool.or_eq_true, decide_eq_true_iff,
            decide_eq_true_iff, ih, lt_add_max_iff, lt_add_max_iff]
        omega

mutual

theorem dec_depth_val (v : YVal) (d : Nat) (hwf : wfY v = true)
    (hle : d &&& 65535 ≤ 1025) :
    (1024 < (d &&& 65535) + ydepthD v → decode_one v d = .error "recursed too deeply")
    ∧ ((d &&& 65535) + ydepthD v ≤ 1024 → (decode_one v d).isOk = true) := by
  by_cases hg : 1024 < d &&& 65535
  · constructor
    · intro _
      unfold decode_one
      rw [if_pos (show d &&& 65535 > janetRecursionGuard from hg)]
    · intro hsh; omega
  · have hg2 : ¬ d &&& 65535 > janetRecursionGuard := hg
    have hlow : d &&& 65535 ≤ 1024 := Nat.not_lt.mp hg
    have hlt : d &&& 65535 < 65535 := by omega
    cases v with
    | ynone => exact absurd hwf (by simp [wfY])
    | ynull =>
        refine ⟨fun hdeep => absurd hdeep (by simp [ydepthD]; omega), fun _ => ?_⟩
        unfold decode_one
        rw [if_neg hg2]
        change (if (d &&& jsonNullToNil != 0) = true
                then (Except.ok JanetV.jnil : Except String JanetV)
                else Except.ok (JanetV.jkey nullBytes)).isOk = true
        split <;> rfl
    | ybool b =>
        refine ⟨fun hdeep => absurd hdeep (by simp [ydepthD]; omega), fun _ => ?_⟩
        unfold decode_one
        rw [if_neg hg2] <;> exact rfl
    | ynum n =>
        refine ⟨fun hdeep => absurd hdeep (by simp [ydepthD]; omega), fun _ => ?_⟩
        unfold decode_one
        rw [if_neg hg2] <;> exact rfl
    | ystr bs =>
        refine ⟨fun hdeep => absurd hdeep (by simp [ydepthD]; omega), fun _ => ?_⟩
        unfold decode_one
        rw [if_neg hg2] <;> exact rfl
    | yarr xs =>
        have hwfl : wfYList xs = true := by simpa [wfY] using hwf
        have ihl := dec_depth_list xs (d + 1) hwfl
          (by rw [and_ffff_succ d hlt]; omega)
        rw [and_ffff_succ d hlt] at ihl
        have harith := anyL_iff xs (d &&& 65535) hlow
        constructor
        · intro hdeep
          have hdeep' : 1024 < (d &&& 65535) + ydList xs := by
            simpa [ydepthD] using hdeep
          have herr := ihl.1 (harith.mpr hdeep')
          unfold decode_one
          rw [if_neg hg2]
          change (match decodeList xs (d + 1) with
                  | Except.error e => Except.error e
                  | Except.ok l => Except.ok (JanetV.jarr l)) = _
          rw [herr] <;> exact rfl
        · intro hsh
          have hsh' : (d &&& 65535) + ydList xs ≤ 1024 := by
            simpa [ydepthD] using hsh
          have hany : anyDeepL xs ((d &&& 65535) + 1) = false := by
            rw [← Bool.not_eq_true]
            intro hx
            have := harith.mp hx
            omega
          have hok := ihl.2 hany
          cases hdl : decodeList xs (d + 1) with
          | error e => rw [hdl] at hok; exact absurd hok (by simp [Except.isOk, Except.toBool])
          | ok l =>
              unfold decode_one
              rw [if_neg hg2]
              change (match decodeList xs (d + 1) with
                      | Except.error e => Except.error e
                      | Except.ok l => Except.ok (JanetV.jarr l)).isOk = true
              rw [hdl] <;> exact rfl
    | yobj kvs =>
        have hwfo : wfYObj kvs = true := by simpa [wfY] using hwf
        have iho := dec_depth_obj kvs d JKVList.nil hwfo hlow
        have harith := anyO_iff kvs (d &&& 65535) hlow
        constructor
        · intro hdeep
          have hdeep' : 1024 < (d &&& 65535) + ydObj kvs := by
            simpa [ydepthD] using hdeep
          have herr := iho.1 (harith.mpr hdeep')
          unfold decode_one
          rw [if_neg hg2]
          change (match decodeObj kvs d JKVList.nil with
                  | Except.error e => Except.error e
                  | Except.ok t => Except.ok (JanetV.jtab t)) = _
          rw [herr] <;> exact rfl
        · intro hsh
          have hsh' : (d &&& 65535) + ydObj kvs ≤ 1024 := by
            simpa [ydepthD] using hsh
          have hany : anyDeepO kvs ((d &&& 65535) + 1) = false := by
            rw [← Bool.not_eq_true]
            intro hx
            have := harith.mp hx
            omega
          have hok := iho.2 hany
          cases hdo : decodeObj kvs d JKVList.nil with
          | error e => rw [hdo] at hok; exact absurd hok (by simp [Except.isOk, Except.toBool])
          | ok t =>
              unfold decode_one
              rw [if_neg hg2]
              change (match decodeObj kvs d JKVList.nil with
                      | Except.error e => Except.error e
                      | Except.ok t => Except.ok (JanetV.jtab t)).isOk = true
              rw [hdo] <;> exact rfl

theorem dec_depth_list (xs : YVList) (d : Nat) (hwf : wfYList xs = true)
    (hle : d &&& 65535 ≤ 1025) :
    (anyDeepL xs (d &&& 65535) = true → decodeList xs d = .error "recursed too deeply")
    ∧ (anyDeepL xs (d &&& 65535) = false → (decodeList xs d).isOk = true) := by
  cases xs with
  | nil =>
      constructor
      · intro h; exact absurd h (by simp [anyDeepL])
      · intro _; rfl
  | cons hd tl =>
      have hwf2 : wfY hd = true ∧ wfYList tl = true := by
        simpa [wfYList, Bool.and_eq_true] using hwf
      have ihv := dec_depth_val hd d hwf2.1 hle
      have ihl := dec_depth_list tl d hwf2.2 hle
      have hsplit : anyDeepL (.cons hd tl) (d &&& 65535)
          = (decide (1024 < (d &&& 65535) + ydepthD hd)
             || anyDeepL tl (d &&& 65535)) := rfl
      constructor
      · intro hany
        rw [hsplit, Bool.or_eq_true] at hany
        by_cases hhd : 1024 < (d &&& 65535) + ydepthD hd
        · have herr := ihv.1 hhd
          unfold decodeList
          rw [herr] <;> exact rfl
        · have htl : anyDeepL tl (d &&& 65535) = true := by
            rcases hany with h | h
            · exact absurd (of_decide_eq_true h) hhd
            · exact h
          have hok := ihv.2 (by omega)
          cases hhd2 : decode_one hd d with
          | error e => rw [hhd2] at hok; exact absurd hok (by simp [Except.isOk, Except.toBool])
          | ok v =>
              have herr := ihl.1 htl
              unfold decodeList
              rw [hhd2, herr] <;> exact rfl
      · intro hany
        rw [hsplit, Bool.or_eq_false_iff] at hany
        have hok1 := ihv.2 (by have := of_decide_eq_false hany.1; omega)
        have hok2 := ihl.2 hany.2
        cases hhd2 : decode_one hd d with
        | error e => rw [hhd2] at hok1; exact absurd hok1 (by simp [Except.isOk, Except.toBool])
        | ok v =>
            cases htl2 : decodeList tl d with
            | error e => rw [htl2] at hok2; exact absurd hok2 (by simp [Except.isOk, Except.toBool])
            | ok l =>
                unfold decodeList
                rw [hhd2, htl2] <;> exact rfl

theorem dec_depth_obj (kvs : YKVList) (d : Nat) (acc : JKVList)
    (hwf : wfYObj kvs = true) (hle : d &&& 65535 ≤ 1024) :
    (anyDeepO kvs ((d &&& 65535) + 1) = true
      → decodeObj kvs d acc = .error "recursed too deeply")
    ∧ (anyDeepO kvs ((d &&& 65535) + 1) = false
      → (decodeObj kvs d acc).isOk = true) := by
  have hlt : d &&& 65535 < 65535 := by omega
  cases kvs with
  | nil =>
      constructor
      · intro h; exact absurd h (by simp [anyDeepO])
      · intro _; rfl
  | cons k v tl =>
      cases k with
      | ystr ks =>
          have hwf2 : wfY v = true ∧ wfYObj tl = true := by
            simpa [wfYObj, Bool.and_eq_true] using hwf
          have ihv := dec_depth_val v (d + 1) hwf2.1
            (by rw [and_ffff_succ d hlt]; omega)
          rw [and_ffff_succ d hlt] at ihv
          have hsplit : anyDeepO (.cons (.ystr ks) v tl) ((d &&& 65535) + 1)
              = (decide (1024 < (d &&& 65535) + 1 + ydepthD v)
                 || anyDeepO tl ((d &&& 65535) + 1)) := rfl
          constructor
          · intro hany
            rw [hsplit, Bool.or_eq_true] at hany
            by_cases hhd : 1024 < (d &&& 65535) + 1 + ydepthD v
            · have herr := ihv.1 (by omega)
              change (match decode_one v (d + 1) with
                      | Except.error e => Except.error e
                      | Except.ok sv =>
                          decodeObj tl d
                            (tablePut acc
                              (if (d &&& jsonKeywordKey != 0) = true
                               then JanetV.jkey (cstrBytes ks)
                               else JanetV.jstr (cstrBytes ks)) sv)) = _
              rw [herr] <;> exact rfl
            · have htl : anyDeepO tl ((d &&& 65535) + 1) = true := by
                rcases hany with h | h
                · exact absurd (of_decide_eq_true h) hhd
                · exact h
              have hok := ihv.2 (by omega)
              cases hv2 : decode_one v (d + 1) with
              | error e =>
                  rw [hv2] at hok
                  exact absurd hok (by simp [Except.isOk, Except.toBool])
              | ok sv =>
                  have iho := dec_depth_obj tl d
                    (tablePut acc
                      (if (d &&& jsonKeywordKey != 0) = true
                       then JanetV.jkey (cstrBytes ks)
                       else JanetV.jstr (cstrBytes ks)) sv) hwf2.2 hle
                  have herr := iho.1 htl
                  change (match decode_one v (d + 1) with
                          | Except.error e => Except.error e
                          | Except.ok sv =>
                              decodeObj tl d
                                (tablePut acc
                                  (if (d &&& jsonKeywordKey != 0) = true
                                   then JanetV.jkey (cstrBytes ks)
                                   else JanetV.jstr (cstrBytes ks)) sv)) = _
                  rw [hv2]
                  dsimp only
                  exact herr
          · intro hany
            rw [hsplit, Bool.or_eq_false_iff] at hany
            have hok1 := ihv.2 (by have := of_decide_eq_false hany.1; omega)
            cases hv2 : decode_one v (d + 1) with
            | error e =>
                rw [hv2] at hok1
                exact absurd hok1 (by simp [Except.isOk, Except.toBool])
            | ok sv =>
                have iho := dec_depth_obj tl d
                  (tablePut acc
                    (if (d &&& jsonKeywordKey != 0) = true
                     then JanetV.jkey (cstrBytes ks)
                     else JanetV.jstr (cstrBytes ks)) sv) hwf2.2 hle
                have hok2 := iho.2 hany.2
                change (match decode_one v (d + 1) with
                        | Except.error e => Except.error e
                        | Except.ok sv =>
                            decodeObj tl d
                              (tablePut acc
                                (if (d &&& jsonKeywordKey != 0) = true
                                 then JanetV.jkey (cstrBytes ks)
                                 else JanetV.jstr (cstrBytes ks)) sv)).isOk = true
                rw [hv2]
                dsimp only
                exact hok2
      | ynone => exact absurd hwf (by simp [wfYObj])
      | ynull => exact absurd hwf (by simp [wfYObj])
      | ybool b => exact absurd hwf (by simp [wfYObj])
      | ynum n => exact absurd hwf (by simp [wfYObj])
      | yarr xs2 => exact absurd hwf (by simp [wfYObj])
      | yobj kvs2 => exact absurd hwf (by simp [wfYObj])

end

theorem byteSeq_encShape (k : JanetV) (h : isByteSeq k = true) : encShape k = true := by
  cases k <;> simp [isByteSeq] at h ⊢ <;> simp [encShape]

mutual

theorem enc_depth_val (x : JanetV) (d : Nat) (hwf : encShape x = true)
    (hle : d &&& 65535 ≤ 1025) :
    (1024 < (d &&& 65535) + jdepthE x → encode_one x d = .error "recursed too deeply")
    ∧ ((d &&& 65535) + jdepthE x ≤ 1024 → (encode_one x d).isOk = true) := by
  by_cases hg : 1024 < d &&& 65535
  · constructor
    · intro _
      unfold encode_one
      rw [if_pos (show d &&& 65535 > janetRecursionGuard from hg)]
    · intro hsh; omega
  · have hg2 : ¬ d &&& 65535 > janetRecursionGuard := hg
    have hlow : d &&& 65535 ≤ 1024 := Nat.not_lt.mp hg
    have hlt : d &&& 65535 < 65535 := by omega
    cases x with
    | jabstract => exact absurd hwf (by simp [encShape])
    | jnil =>
        refine ⟨fun hdeep => absurd hdeep (by simp [jdepthE]; omega), fun _ => ?_⟩
        unfold encode_one
        rw [if_neg hg2] <;> exact rfl
    | jbool b =>
        refine ⟨fun hdeep => absurd hdeep (by simp [jdepthE]; omega), fun _ => ?_⟩
        unfold encode_one
        rw [if_neg hg2] <;> exact rfl
    | jnum n =>
        refine ⟨fun hdeep => absurd hdeep (by simp [jdepthE]; omega), fun _ => ?_⟩
        unfold encode_one
        rw [if_neg hg2]
        change (if roundEqSelf n = true
                then (Except.ok (YMut.mint (doubleToInt64 n)) : Except String YMut)
                else Except.ok (YMut.mreal n)).isOk = true
        split <;> rfl
    | jstr bs =>
        refine ⟨fun hdeep => absurd hdeep (by simp [jdepthE]; omega), fun _ => ?_⟩
        unfold encode_one
        rw [if_neg hg2]
        change (if janetKeyeqNull (.jstr bs) = true
                then (Except.ok YMut.mnull : Except String YMut)
                else Except.ok (YMut.mstr (cstrBytes bs))).isOk = true
        split <;> rfl
    | jsym bs =>
        refine ⟨fun hdeep => absurd hdeep (by simp [jdepthE]; omega), fun _ => ?_⟩
        unfold encode_one
        rw [if_neg hg2]
        change (if janetKeyeqNull (.jsym bs) = true
                then (Except.ok YMut.mnull : Except String YMut)
                else Except.ok (YMut.mstr (cstrBytes bs))).isOk = true
        split <;> rfl
    | jkey bs =>
        refine ⟨fun hdeep => absurd hdeep (by simp [jdepthE]; omega), fun _ => ?_⟩
        unfold encode_one
        rw [if_neg hg2]
        change (if janetKeyeqNull (.jkey bs) = true
                then (Except.ok YMut.mnull : Except String YMut)
                else Except.ok (YMut.mstr (cstrBytes bs))).isOk = true
        split <;> rfl
    | jbuf bs =>
        refine ⟨fun hdeep => absurd hdeep (by simp [jdepthE]; omega), fun _ => ?_⟩
        unfold encode_one
        rw [if_neg hg2]
        change (if janetKeyeqNull (.jbuf bs) = true
                then (Except.ok YMut.mnull : Except String YMut)
                else Except.ok (YMut.mstr (cstrBytes bs))).isOk = true
        split <;> rfl
    | jtup xs =>
        have hwfl : encShapeList xs = true := by simpa [encShape] using hwf
        have ihl := enc_depth_list xs (d + 1) hwfl
          (by rw [and_ffff_succ d hlt]; omega)
        rw [and_ffff_succ d hlt] at ihl
        have harith := anyEL_iff xs (d &&& 65535) hlow
        constructor
        · intro hdeep
          have herr := ihl.1 (harith.mpr (by simpa [jdepthE] using hdeep))
          unfold encode_one
          rw [if_neg hg2]
          change (match encodeList xs (d + 1) with
                  | Except.error e => Except.error e
                  | Except.ok l => Except.ok (YMut.marr l)) = _
          rw [herr] <;> exact rfl
        · intro hsh
          have hany : anyDeepEL xs ((d &&& 65535) + 1) = false := by
            rw [← Bool.not_eq_true]
            intro hx
            have := harith.mp hx
            simp [jdepthE] at hsh
            omega
          have hok := ihl.2 hany
          cases hdl : encodeList xs (d + 1) with
          | error e => rw [hdl] at hok; exact absurd hok (by simp [Except.isOk, Except.toBool])
          | ok l =>
              unfold encode_one
              rw [if_neg hg2]
              change (match encodeList xs (d + 1) with
                      | Except.error e => Except.error e
                      | Except.ok l => Except.ok (YMut.marr l)).isOk = true
              rw [hdl] <;> exact rfl
    | jarr xs =>
        have hwfl : encShapeList xs = true := by simpa [encShape] using hwf
        have ihl := enc_depth_list xs (d + 1) hwfl
          (by rw [and_ffff_succ d hlt]; omega)
        rw [and_ffff_succ d hlt] at ihl
        have harith := anyEL_iff xs (d &&& 65535) hlow
        constructor
        · intro hdeep
          have herr := ihl.1 (harith.mpr (by simpa [jdepthE] using hdeep))
          unfold encode_one
          rw [if_neg hg2]
          change (match encodeList xs (d + 1) with
                  | Except.error e => Except.error e
                  | Except.ok l => Except.ok (YMut.marr l)) = _
          rw [herr] <;> exact rfl
        · intro hsh
          have hany : anyDeepEL xs ((d &&& 65535) + 1) = false := by
            rw [← Bool.not_eq_true]
            intro hx
            have := harith.mp hx
            simp [jdepthE] at hsh
            omega
          have hok := ihl.2 hany
          cases hdl : encodeList xs (d + 1) with
          | error e => rw [hdl] at hok; exact absurd hok (by simp [Except.isOk, Except.toBool])
          | ok l =>
              unfold encode_one
              rw [if_neg hg2]
              change (match encodeList xs (d + 1) with
                      | Except.error e => Except.error e
                      | Except.ok l => Except.ok (YMut.marr l)).isOk = true
              rw [hdl] <;> exact rfl
    | jtab kvs =>
        have hwfo : encShapeObj kvs = true := by simpa [encShape] using hwf
        have iho := enc_depth_obj kvs (d + 1) hwfo
          (by rw [and_ffff_succ d hlt]; omega)
        rw [and_ffff_succ d hlt] at iho
        have harith := anyEO_iff kvs (d &&& 65535) hlow
        constructor
        · intro hdeep
          have herr := iho.1 (harith.mpr (by simpa [jdepthE] using hdeep))
          unfold encode_one
          rw [if_neg hg2]
          change (match encodeObj kvs (d + 1) with
                  | Except.error e => Except.error e
                  | Except.ok o => Except.ok (YMut.mobj o)) = _
          rw [herr] <;> exact rfl
        · intro hsh
          have hany : anyDeepEO kvs ((d &&& 65535) + 1) = false := by
            rw [← Bool.not_eq_true]
            intro hx
            have := harith.mp hx
            simp [jdepthE] at hsh
            omega
          have hok := iho.2 hany
          cases hdo : encodeObj kvs (d + 1) with
          | error e => rw [hdo] at hok; exact absurd hok (by simp [Except.isOk, Except.toBool])
          | ok o =>
              unfold encode_one
              rw [if_neg hg2]
              change (match encodeObj kvs (d + 1) with
                      | Except.error e => Except.error e
                      | Except.ok o => Except.ok (YMut.mobj o)).isOk = true
              rw [hdo] <;> exact rfl
    | jstruct kvs =>
        have hwfo : encShapeObj kvs = true := by simpa [encShape] using hwf
        have iho := enc_depth_obj kvs (d + 1) hwfo
          (by rw [and_ffff_succ d hlt]; omega)
        rw [and_ffff_succ d hlt] at iho
        have harith := anyEO_iff kvs (d &&& 65535) hlow
        constructor
        · intro hdeep
          have herr := iho.1 (harith.mpr (by simpa [jdepthE] using hdeep))
          unfold encode_one
          rw [if_neg hg2]
          change (match encodeObj kvs (d + 1) with
                  | Except.error e => Except.error e
                  | Except.ok o => Except.ok (YMut.mobj o)) = _
          rw [herr] <;> exact rfl
        · intro hsh
          have hany : anyDeepEO kvs ((d &&& 65535) + 1) = false := by
            rw [← Bool.not_eq_true]
            intro hx
            have := harith.mp hx
            simp [jdepthE] at hsh
            omega
          have hok := iho.2 hany
          cases hdo : encodeObj kvs (d + 1) with
          | error e => rw [hdo] at hok; exact absurd hok (by simp [Except.isOk, Except.toBool])
          | ok o =>
              unfold encode_one
              rw [if_neg hg2]
              change (match encodeObj kvs (d + 1) with
                      | Except.error e => Except.error e
                      | Except.ok o => Except.ok (YMut.mobj o)).isOk = true
              rw [hdo] <;> exact rfl

theorem enc_depth_list (xs : JVList) (d : Nat) (hwf : encShapeList xs = true)
    (hle : d &&& 65535 ≤ 1025) :
    (anyDeepEL xs (d &&& 65535) = true → encodeList xs d = .error "recursed too deeply")
    ∧ (anyDeepEL xs (d &&& 65535) = false → (encodeList xs d).isOk = true) := by
  cases xs with
  | nil =>
      constructor
      · intro h; exact absurd h (by simp [anyDeepEL])
      · intro _; rfl
  | cons hd tl =>
      have hwf2 : encShape hd = true ∧ encShapeList tl = true := by
        simpa [encShapeList, Bool.and_eq_true] using hwf
      have ihv := enc_depth_val hd d hwf2.1 hle
      have ihl := enc_depth_list tl d hwf2.2 hle
      have hsplit : anyDeepEL (.cons hd tl) (d &&& 65535)
          = (decide (1024 < (d &&& 65535) + jdepthE hd)
             || anyDeepEL tl (d &&& 65535)) := rfl
      constructor
      · intro hany
        rw [hsplit, Bool.or_eq_true] at hany
        by_cases hhd : 1024 < (d &&& 65535) + jdepthE hd
        · have herr := ihv.1 hhd
          unfold encodeList
          rw [herr]
        · have htl : anyDeepEL tl (d &&& 65535) = true := by
            rcases hany with h | h
            · exact absurd (of_decide_eq_true h) hhd
            · exact h
          have hok := ihv.2 (by omega)
          cases hhd2 : encode_one hd d with
          | error e => rw [hhd2] at hok; exact absurd hok (by simp [Except.isOk, Except.toBool])
          | ok v =>
              have herr := ihl.1 htl
              unfold encodeList
              rw [hhd2, herr]
      · intro hany
        rw [hsplit, Bool.or_eq_false_iff] at hany
        have hok1 := ihv.2 (by have := of_decide_eq_false hany.1; omega)
        have hok2 := ihl.2 hany.2
        cases hhd2 : encode_one hd d with
        | error e => rw [hhd2] at hok1; exact absurd hok1 (by simp [Except.isOk, Except.toBool])
        | ok v =>
            cases htl2 : encodeList tl d with
            | error e => rw [htl2] at hok2; exact absurd hok2 (by simp [Except.isOk, Except.toBool])
            | ok l =>
                unfold encodeList
                rw [hhd2, htl2] <;> exact rfl

theorem enc_depth_obj (kvs : JKVList) (d : Nat) (hwf : encShapeObj kvs = true)
    (hle : d &&& 65535 ≤ 1025) :
    (anyDeepEO kvs (d &&& 65535) = true → encodeObj kvs d = .error "recursed too deeply")
    ∧ (anyDeepEO kvs (d &&& 65535) = false → (encodeObj kvs d).isOk = true) := by
  cases kvs with
  | nil =>
      constructor
      · intro h; exact absurd h (by simp [anyDeepEO])
      · intro _; rfl
  | cons k v tl =>
      by_cases hk : k = JanetV.jnil
      · subst hk
        have hL : encodeObj (JKVList.cons JanetV.jnil v tl) d = encodeObj tl d := rfl
        have hwf' : encShapeObj tl = true := by
          simpa [encShapeObj, isNil] using hwf
        have hA : anyDeepEO (JKVList.cons JanetV.jnil v tl) (d &&& 65535)
            = anyDeepEO tl (d &&& 65535) := by
          simp [anyDeepEO, isNil]
        rw [hL, hA]
        exact enc_depth_obj tl d hwf' hle
      · have hknil : isNil k = false := by
          rw [← Bool.not_eq_true]
          intro h
          exact hk ((isNil_iff k).mp h)
        have hnn : ¬ (isNil k = true) := by simp [hknil]
        have hwf3 : isByteSeq k = true ∧ encShape v = true ∧ encShapeObj tl = true := by
          have h0 := hwf
          unfold encShapeObj at h0
          rw [if_neg hnn, Bool.and_eq_true, Bool.and_eq_true] at h0
          exact ⟨h0.1.1, h0.1.2, h0.2⟩
        have hb := hwf3.1
        have ihk := enc_depth_val k d (byteSeq_encShape k hb) hle
        have ihv := enc_depth_val v d hwf3.2.1 hle
        have iht := enc_depth_obj tl d hwf3.2.2 hle
        have hsplit : anyDeepEO (.cons k v tl) (d &&& 65535)
            = (decide (1024 < (d &&& 65535) + jdepthE k)
               || decide (1024 < (d &&& 65535) + jdepthE v)
               || anyDeepEO tl (d &&& 65535)) := by
          simp only [anyDeepEO]
          rw [if_neg hnn]
        have hbody : encodeObj (.cons k v tl) d
            = (if k = JanetV.jnil then encodeObj tl d
               else if !(isByteSeq k) then .error "object key must be a byte sequence"
               else match encode_one k d with
                    | .error e => .error e
                    | .ok sk =>
                        match encode_one v d with
                        | .error e => .error e
                        | .ok sv =>
                            match encodeObj tl d with
                            | .error e => .error e
                            | .ok rest => .ok (mutObjAdd sk sv rest)) := rfl
        constructor
        · intro hany
          rw [hsplit, Bool.or_eq_true, Bool.or_eq_true] at hany
          by_cases hhk : 1024 < (d &&& 65535) + jdepthE k
          · have herr := ihk.1 hhk
            rw [hbody, if_neg hk, hb, herr] <;> exact rfl
          · have hokk := ihk.2 (by omega)
            cases hk2 : encode_one k d with
            | error e => rw [hk2] at hokk; exact absurd hokk (by simp [Except.isOk, Except.toBool])
            | ok sk =>
                by_cases hhv : 1024 < (d &&& 65535) + jdepthE v
                · have herr := ihv.1 hhv
                  rw [hbody, if_neg hk, hb, hk2, herr] <;> exact rfl
                · have htl : anyDeepEO tl (d &&& 65535) = true := by
                    rcases hany with (h | h) | h
                    · exact absurd (of_decide_eq_true h) hhk
                    · exact absurd (of_decide_eq_true h) hhv
                    · exact h
                  have hokv := ihv.2 (by omega)
                  cases hv2 : encode_one v d with
                  | error e => rw [hv2] at hokv; exact absurd hokv (by simp [Except.isOk, Except.toBool])
                  | ok sv =>
                      have herr := iht.1 htl
                      rw [hbody, if_neg hk, hb, hk2, hv2, herr] <;> exact rfl
        · intro hany
          rw [hsplit, Bool.or_eq_false_iff, Bool.or_eq_false_iff] at hany
          have hokk := ihk.2 (by have := of_decide_eq_false hany.1.1; omega)
          have hokv := ihv.2 (by have := of_decide_eq_false hany.1.2; omega)
          have hokt := iht.2 hany.2
          cases hk2 : encode_one k d with
          | error e => rw [hk2] at hokk; exact absurd hokk (by simp [Except.isOk, Except.toBool])
          | ok sk =>
              cases hv2 : encode_one v d with
              | error e => rw [hv2] at hokv; exact absurd hokv (by simp [Except.isOk, Except.toBool])
              | ok sv =>
                  cases ht2 : encodeObj tl d with
                  | error e => rw [ht2] at hokt; exact absurd hokt (by simp [Except.isOk, Except.toBool])
                  | ok rest =>
                      have : encodeObj (.cons k v tl) d = .ok (mutObjAdd sk sv rest) := by
                        rw [hbody, if_neg hk, hb, hk2, hv2, ht2] <;> exact rfl
                      rw [this]
                      rfl

end

theorem wfY_nest (n : Nat) : wfY (nestYArr n) = true := by
  induction n with
  | zero => rfl
  | succ n ih => simp [nestYArr, wfY, wfYList, ih]

theorem ydepth_nest (n : Nat) : ydepthD (nestYArr n) = n := by
  induction n with
  | zero => rfl
  | succ n ih => simp [nestYArr, ydepthD, ydList, ih]; omega

theorem encShape_nest (n : Nat) : encShape (nestJArr n) = true := by
  induction n with
  | zero => rfl
  | succ n ih => simp [nestJArr, encShape, encShapeList, ih]

theorem jdepth_nest (n : Nat) : jdepthE (nestJArr n) = n := by
  induction n with
  | zero => rfl
  | succ n ih => simp [nestJArr, jdepthE, jdList, ih]; omega

/-- C5: both conversion directions enforce the same fixed recursion-depth
guard (JANET_RECURSION_GUARD = 1024): on any input free of the other
error kinds, the conversion fails with the recursed-too-deeply message —
which the entry points surface as RecursionLimitError, aborting the whole
operation with no partial value — exactly when the value nests deeper
than the guard, for decode under any flag combination and for encode. -/
theorem claim_c5 :
    (∀ (root : YVal) (keywords nils : Bool), wfY root = true →
        (decode_one root (packFlags keywords nils) = .error "recursed too deeply"
          ↔ 1024 < ydepthD root))
    ∧ (∀ x : JanetV, encShape x = true →
        (encode_one x 0 = .error "recursed too deeply" ↔ 1024 < jdepthE x))
    ∧ janetRecursionGuard = 1024 := by
  refine ⟨?_, ?_, rfl⟩
  · intro root kw nl hwf
    have hlow : packFlags kw nl &&& 65535 = 0 := by
      cases kw <;> cases nl <;> decide
    have h := dec_depth_val root (packFlags kw nl) hwf (by rw [hlow]; omega)
    rw [hlow] at h
    simp only [Nat.zero_add] at h
    constructor
    · intro herr
      by_contra hc
      have hok := h.2 (by omega)
      rw [herr] at hok
      exact absurd hok (by simp [Except.isOk, Except.toBool])
    · exact h.1
  · intro x hwf
    have h := enc_depth_val x 0 hwf (by decide)
    simp only [show (0 : Nat) &&& 65535 = 0 from rfl, Nat.zero_add] at h
    constructor
    · intro herr
      by_contra hc
      have hok := h.2 (by omega)
      rw [herr] at hok
      exact absurd hok (by simp [Except.isOk, Except.toBool])
    · exact h.1

/-- C5 witness: an array nested 1030 deep trips the guard in both
directions. -/
theorem claim_c5_witness :
    decode_one (nestYArr 1030) (packFlags false false) = .error "recursed too deeply"
    ∧ encode_one (nestJArr 1030) 0 = .error "recursed too deeply" := by
  constructor
  · exact (claim_c5.1 (nestYArr 1030) false false (wfY_nest 1030)).mpr
      (by rw [ydepth_nest]; omega)
  · exact (claim_c5.2.1 (nestJArr 1030) (encShape_nest 1030)).mpr
      (by rw [jdepth_nest]; omega)

/-! Facts supporting the round-trip theorem (C1). -/

theorem cstr_of_all (bs : List Nat) (h : bs.all (fun b => b != 0) = true) :
    cstrBytes bs = bs := by
  unfold cstrBytes
  rw [List.takeWhile_eq_self_iff]
  intro x hx
  exact List.all_eq_true.mp h x hx

theorem beq_comm' {α : Type} [BEq α] [LawfulBEq α] (x y : α) : (x == y) = (y == x) := by
  by_cases h : x = y
  · subst h; rfl
  · rw [beq_eq_false_iff_ne.mpr h, beq_eq_false_iff_ne.mpr (Ne.symm h)]

theorem jnumEquals_comm (x y : JNum) : jnumEquals x y = jnumEquals y x := by
  cases x <;> cases y <;> simp [jnumEquals] <;> exact eq_comm

theorem janetEquals_comm (a b : JanetV) : janetEquals a b = janetEquals b a := by
  cases a <;> cases b <;> simp [janetEquals]
  case jnum.jnum => exact jnumEquals_comm _ _
  case jbool.jbool => exact eq_comm
  case jstr.jstr => exact eq_comm
  case jsym.jsym => exact eq_comm
  case jkey.jkey => exact eq_comm

theorem goodKey_not_nil (kw : Bool) (k : JanetV) (h : goodKeyBytes kw k = true) :
    isNil k = false := by
  cases kw <;> cases k <;> first | rfl | simp [goodKeyBytes] at h

theorem goodKey_byteSeq (kw : Bool) (k : JanetV) (h : goodKeyBytes kw k = true) :
    isByteSeq k = true := by
  cases kw <;> cases k <;> first | rfl | simp [goodKeyBytes] at h

theorem key_cycle (kw : Bool) (k : JanetV) (d : Nat) (hk : goodKeyBytes kw k = true)
    (hd : ¬ d &&& 65535 > janetRecursionGuard) :
    ∃ ks : List Nat, encode_one k d = .ok (.mstr ks)
      ∧ (if kw then JanetV.jkey (cstrBytes ks) else JanetV.jstr (cstrBytes ks)) = k := by
  cases kw
  · cases k <;> simp [goodKeyBytes] at hk
    case jstr bs =>
        refine ⟨bs, ?_, ?_⟩
        · unfold encode_one
          rw [if_neg hd]
          change (if janetKeyeqNull (.jstr bs) = true then Except.ok YMut.mnull
                  else Except.ok (YMut.mstr (cstrBytes bs))) = _
          rw [cstr_of_all bs (by simpa [List.all_eq_true] using hk)]
          rfl
        · simp [cstr_of_all bs (by simpa [List.all_eq_true] using hk)]
  · cases k <;> simp [goodKeyBytes] at hk
    case jkey bs =>
        obtain ⟨hall, hne⟩ := hk
        have hcs : cstrBytes bs = bs :=
          cstr_of_all bs (by simpa [List.all_eq_true] using hall)
        refine ⟨bs, ?_, ?_⟩
        · unfold encode_one
          rw [if_neg hd]
          change (if janetKeyeqNull (.jkey bs) = true then Except.ok YMut.mnull
                  else Except.ok (YMut.mstr (cstrBytes bs))) = _
          have : janetKeyeqNull (.jkey bs) = false := by
            simpa [janetKeyeqNull] using beq_eq_false_iff_ne.mpr hne
          rw [this, hcs]
          simp
        · simp [hcs]

theorem tableSet_fresh (acc : JKVList) (k v : JanetV)
    (hk : keyNotIn k acc = true) :
    tableSet acc k v = jkvAppend acc (.cons k v .nil) := by
  cases acc with
  | nil => rfl
  | cons k0 v0 tl =>
      have h2 : janetEquals k0 k = false ∧ keyNotIn k tl = true := by
        simpa [keyNotIn, Bool.and_eq_true] using hk
      unfold tableSet
      rw [h2.1]
      simp [jkvAppend, tableSet_fresh tl k v h2.2]

theorem tablePut_bytes_fresh (acc : JKVList) (k v : JanetV)
    (hb : isByteSeq k = true) (hv : isNil v = false)
    (hk : keyNotIn k acc = true) :
    tablePut acc k v = jkvAppend acc (.cons k v .nil) := by
  cases k <;> simp [isByteSeq] at hb <;>
    (cases v <;> simp [isNil] at hv <;> exact tableSet_fresh acc _ _ hk)

theorem keyNotIn_append (k : JanetV) (a b : JKVList) :
    keyNotIn k (jkvAppend a b) = (keyNotIn k a && keyNotIn k b) := by
  cases a with
  | nil => simp [jkvAppend, keyNotIn]
  | cons k0 v0 tl =>
      simp [jkvAppend, keyNotIn, keyNotIn_append k tl b, Bool.and_assoc]

theorem allKeys_nil (kvs : JKVList) : allKeysNotIn kvs .nil = true := by
  cases kvs with
  | nil => rfl
  | cons k v tl => simp [allKeysNotIn, keyNotIn, allKeys_nil tl]

theorem allKeys_append (kvs a b : JKVList) :
    allKeysNotIn kvs (jkvAppend a b)
      = (allKeysNotIn kvs a && allKeysNotIn kvs b) := by
  cases kvs with
  | nil => rfl
  | cons k v tl =>
      show (keyNotIn k (jkvAppend a b) && allKeysNotIn tl (jkvAppend a b))
         = ((keyNotIn k a && allKeysNotIn tl a) && (keyNotIn k b && allKeysNotIn tl b))
      rw [keyNotIn_append, allKeys_append tl a b]
      cases keyNotIn k a <;> cases keyNotIn k b <;>
        cases allKeysNotIn tl a <;> cases allKeysNotIn tl b <;> rfl

theorem allKeys_single (k v : JanetV) (tl : JKVList)
    (h : keyNotIn k tl = true) :
    allKeysNotIn tl (.cons k v .nil) = true := by
  cases tl with
  | nil => rfl
  | cons k2 v2 tl2 =>
      have h2 : janetEquals k2 k = false ∧ keyNotIn k tl2 = true := by
        simpa [keyNotIn, Bool.and_eq_true] using h
      have hc : janetEquals k k2 = false := by
        rw [janetEquals_comm]; exact h2.1
      simp [allKeysNotIn, keyNotIn, hc, allKeys_single k v tl2 h2.2]

theorem jkvAppend_single_assoc (acc : JKVList) (k v : JanetV) (tl : JKVList) :
    jkvAppend (jkvAppend acc (.cons k v .nil)) tl
      = jkvAppend acc (.cons k v tl) := by
  cases acc with
  | nil => rfl
  | cons k0 v0 a => simp [jkvAppend, jkvAppend_single_assoc a k v tl]

theorem jkvAppend_nil_right (a : JKVList) : jkvAppend a .nil = a := by
  cases a with
  | nil => rfl
  | cons k v tl => simp [jkvAppend, jkvAppend_nil_right tl]

mutual

theorem rt_val (v : JanetV) (kw : Bool) (d l : Nat) (hgood : goodRT kw v = true)
    (hd : (d &&& 65535) + jdepthE v ≤ 1024) (hl : l + jdepthE v ≤ 1024) :
    ∃ m y, encode_one v d = .ok m ∧ reparse m = some y
      ∧ decodeSpec kw true y l = .ok v := by
  have hg2 : ¬ d &&& 65535 > janetRecursionGuard := by
    simp only [janetRecursionGuard]; omega
  have hgl : ¬ l > janetRecursionGuard := by
    simp only [janetRecursionGuard]; omega
  cases v with
  | jnil =>
      refine ⟨.mnull, .ynull, ?_, rfl, ?_⟩
      · unfold encode_one; rw [if_neg hg2] <;> exact rfl
      · unfold decodeSpec; rw [if_neg hgl] <;> exact rfl
  | jbool b =>
      refine ⟨.mbool b, .ybool b, ?_, rfl, ?_⟩
      · unfold encode_one; rw [if_neg hg2] <;> exact rfl
      · unfold decodeSpec; rw [if_neg hgl] <;> exact rfl
  | jnum n =>
      cases n with
      | finite q =>
          have hgn : (!(roundEqSelf (.finite q))
              || (doubleToInt64 (.finite q)).isSome) = true := by
            simpa [goodRT, goodNum] using hgood
          by_cases hr : roundEqSelf (.finite q) = true
          · have hden := roundEq_den_one q hr
            have hcast : ((q.num : ℚ)) = q := (Rat.den_eq_one_iff q).mp hden
            have hisS : (doubleToInt64 (.finite q)).isSome = true := by
              rw [hr] at hgn; simpa using hgn
            have hir : -2 ^ 63 ≤ ratTrunc q ∧ ratTrunc q < 2 ^ 63 := by
              by_contra hc
              have hnone : doubleToInt64 (.finite q) = none := by
                unfold doubleToInt64
                change (if -2 ^ 63 ≤ ratTrunc q ∧ ratTrunc q < 2 ^ 63
                        then some (ratTrunc q) else none) = none
                rw [if_neg hc]
              rw [hnone] at hisS
              exact absurd hisS (by simp)
            have hsome : doubleToInt64 (.finite q) = some q.num := by
              unfold doubleToInt64
              change (if -2 ^ 63 ≤ ratTrunc q ∧ ratTrunc q < 2 ^ 63
                      then some (ratTrunc q) else none) = some q.num
              rw [if_pos hir, ratTrunc_den_one q hden]
            refine ⟨.mint (doubleToInt64 (.finite q)), .ynum (.finite q), ?_, ?_, ?_⟩
            · unfold encode_one
              rw [if_neg hg2]
              change (if roundEqSelf (.finite q) = true
                      then Except.ok (YMut.mint (doubleToInt64 (.finite q)))
                      else Except.ok (YMut.mreal (.finite q))) = _
              rw [if_pos hr]
            · rw [hsome]
              show some (YVal.ynum (.finite ((q.num : ℚ)))) = some (YVal.ynum (.finite q))
              rw [hcast]
            · unfold decodeSpec; rw [if_neg hgl] <;> exact rfl
          · refine ⟨.mreal (.finite q), .ynum (.finite q), ?_, rfl, ?_⟩
            · unfold encode_one
              rw [if_neg hg2]
              change (if roundEqSelf (.finite q) = true
                      then Except.ok (YMut.mint (doubleToInt64 (.finite q)))
                      else Except.ok (YMut.mreal (.finite q))) = _
              rw [if_neg hr]
            · unfold decodeSpec; rw [if_neg hgl] <;> exact rfl
      | nan => exact absurd hgood (by simp [goodRT, goodNum])
      | inf => exact absurd hgood (by simp [goodRT, goodNum])
      | neginf => exact absurd hgood (by simp [goodRT, goodNum])
  | jstr bs =>
      have hall : bs.all (fun b => b != 0) = true := by
        simpa [goodRT] using hgood
      have hcs : cstrBytes bs = bs := cstr_of_all bs hall
      refine ⟨.mstr bs, .ystr bs, ?_, rfl, ?_⟩
      · unfold encode_one
        rw [if_neg hg2]
        change (if janetKeyeqNull (.jstr bs) = true then Except.ok YMut.mnull
                else Except.ok (YMut.mstr (cstrBytes bs))) = _
        rw [hcs] <;> exact rfl
      · unfold decodeSpec
        rw [if_neg hgl]
        change Except.ok (JanetV.jstr (cstrBytes bs)) = Except.ok (JanetV.jstr bs)
        rw [hcs]
  | jarr xs =>
      have hgl' : goodRTList kw xs = true := by simpa [goodRT] using hgood
      have hjd : jdepthE (.jarr xs) = jdList xs := rfl
      rw [hjd] at hd hl
      have hdd : (d &&& 65535) < 65535 := by omega
      obtain ⟨ml, yl, he, hrp, hdec⟩ := rt_list xs kw (d + 1) (l + 1) hgl'
        (by rw [and_ffff_succ d hdd]; omega) (by omega)
      refine ⟨.marr ml, .yarr yl, ?_, ?_, ?_⟩
      · unfold encode_one
        rw [if_neg hg2]
        change (match encodeList xs (d + 1) with
                | Except.error e => Except.error e
                | Except.ok l2 => Except.ok (YMut.marr l2)) = _
        rw [he] <;> exact rfl
      · show reparse (.marr ml) = some (.yarr yl)
        change (match reparseList ml with
                | none => none
                | some l2 => some (YVal.yarr l2)) = _
        rw [hrp] <;> exact rfl
      · unfold decodeSpec
        rw [if_neg hgl]
        change (match decodeSpecList kw true yl (l + 1) with
                | Except.error e => Except.error e
                | Except.ok l2 => Except.ok (JanetV.jarr l2)) = _
        rw [hdec] <;> exact rfl
  | jtab kvs =>
      have hsplit : goodRTObj kw kvs = true ∧ keysDistinct kvs = true := by
        simpa [goodRT, Bool.and_eq_true] using hgood
      have hjd : jdepthE (.jtab kvs) = jdObj kvs := rfl
      rw [hjd] at hd hl
      have hdd : (d &&& 65535) < 65535 := by omega
      obtain ⟨mo, yo, he, hrp, hdec⟩ := rt_obj kvs kw (d + 1) l .nil hsplit.1 hsplit.2
        (allKeys_nil kvs) (by rw [and_ffff_succ d hdd]; omega) (by omega)
      refine ⟨.mobj mo, .yobj yo, ?_, ?_, ?_⟩
      · unfold encode_one
        rw [if_neg hg2]
        change (match encodeObj kvs (d + 1) with
                | Except.error e => Except.error e
                | Except.ok o => Except.ok (YMut.mobj o)) = _
        rw [he] <;> exact rfl
      · show reparse (.mobj mo) = some (.yobj yo)
        change (match reparseObj mo with
                | none => none
                | some o => some (YVal.yobj o)) = _
        rw [hrp] <;> exact rfl
      · unfold decodeSpec
        rw [if_neg hgl]
        change (match decodeSpecObj kw true yo l JKVList.nil with
                | Except.error e => Except.error e
                | Except.ok t => Except.ok (JanetV.jtab t)) = _
        rw [hdec]
        exact rfl
  | jsym bs => exact absurd hgood (by simp [goodRT])
  | jkey bs => exact absurd hgood (by simp [goodRT])
  | jbuf bs => exact absurd hgood (by simp [goodRT])
  | jtup xs => exact absurd hgood (by simp [goodRT])
  | jstruct kvs => exact absurd hgood (by simp [goodRT])
  | jabstract => exact absurd hgood (by simp [goodRT])

theorem rt_list (xs : JVList) (kw : Bool) (d l : Nat) (hgood : goodRTList kw xs = true)
    (hd : (d &&& 65535) + jdList xs ≤ 1025) (hl : l + jdList xs ≤ 1025) :
    ∃ ml yl, encodeList xs d = .ok ml ∧ reparseList ml = some yl
      ∧ decodeSpecList kw true yl l = .ok xs := by
  cases xs with
  | nil => exact ⟨.nil, .nil, rfl, rfl, rfl⟩
  | cons hd0 tl =>
      have hsplit : goodRT kw hd0 = true ∧ goodRTList kw tl = true := by
        simpa [goodRTList, Bool.and_eq_true] using hgood
      have hmax1 : 1 + jdepthE hd0 ≤ jdList (.cons hd0 tl) := Nat.le_max_left _ _
      have hmax2 : jdList tl ≤ jdList (.cons hd0 tl) := Nat.le_max_right _ _
      obtain ⟨m, y, he, hrp, hdec⟩ := rt_val hd0 kw d l hsplit.1 (by omega) (by omega)
      obtain ⟨ml, yl, hel, hrpl, hdecl⟩ := rt_list tl kw d l hsplit.2 (by omega) (by omega)
      refine ⟨.cons m ml, .cons y yl, ?_, ?_, ?_⟩
      · unfold encodeList
        rw [he, hel] <;> exact rfl
      · show reparseList (.cons m ml) = some (.cons y yl)
        change (match reparse m, reparseList ml with
                | some a, some b => some (YVList.cons a b)
                | _, _ => none) = _
        rw [hrp, hrpl] <;> exact rfl
      · unfold decodeSpecList
        rw [hdec, hdecl] <;> exact rfl

theorem rt_obj (kvs : JKVList) (kw : Bool) (d l : Nat) (acc : JKVList)
    (hgood : goodRTObj kw kvs = true) (hdist : keysDistinct kvs = true)
    (hfresh : allKeysNotIn kvs acc = true)
    (hd : (d &&& 65535) + jdObj kvs ≤ 1025) (hl : l + jdObj kvs ≤ 1024) :
    ∃ mo yo, encodeObj kvs d = .ok mo ∧ reparseObj mo = some yo
      ∧ decodeSpecObj kw true yo l acc = .ok (jkvAppend acc kvs) := by
  cases kvs with
  | nil =>
      refine ⟨.nil, .nil, rfl, rfl, ?_⟩
      show Except.ok acc = Except.ok (jkvAppend acc .nil)
      rw [jkvAppend_nil_right]
  | cons k v tl =>
      have hg4 : goodKeyBytes kw k = true ∧ goodRT kw v = true
          ∧ (!(isNil v)) = true ∧ goodRTObj kw tl = true := by
        have h0 := hgood
        unfold goodRTObj at h0
        rw [Bool.and_eq_true, Bool.and_eq_true, Bool.and_eq_true] at h0
        exact ⟨h0.1.1.1, h0.1.1.2, h0.1.2, h0.2⟩
      have hd2 : keyNotIn k tl = true ∧ keysDistinct tl = true := by
        simpa [keysDistinct, Bool.and_eq_true] using hdist
      have hf2 : keyNotIn k acc = true ∧ allKeysNotIn tl acc = true := by
        simpa [allKeysNotIn, Bool.and_eq_true] using hfresh
      have hknil : isNil k = false := goodKey_not_nil kw k hg4.1
      have hbyte : isByteSeq k = true := goodKey_byteSeq kw k hg4.1
      have hvnil : isNil v = false := by
        have := hg4.2.2.1; simpa using this
      have hjsplit : jdObj (.cons k v tl)
          = max (max (1 + jdepthE k) (1 + jdepthE v)) (jdObj tl) := by
        simp only [jdObj]
        rw [if_neg (by simp [hknil])]
      rw [hjsplit] at hd hl
      have hm1 : 1 + jdepthE k ≤ max (max (1 + jdepthE k) (1 + jdepthE v)) (jdObj tl) :=
        le_trans (Nat.le_max_left _ _) (Nat.le_max_left _ _)
      have hm2 : 1 + jdepthE v ≤ max (max (1 + jdepthE k) (1 + jdepthE v)) (jdObj tl) :=
        le_trans (Nat.le_max_right _ _) (Nat.le_max_left _ _)
      have hm3 : jdObj tl ≤ max (max (1 + jdepthE k) (1 + jdepthE v)) (jdObj tl) :=
        Nat.le_max_right _ _
      have hg2 : ¬ d &&& 65535 > janetRecursionGuard := by
        simp only [janetRecursionGuard]; omega
      obtain ⟨ks, hek, hkeyeq⟩ := key_cycle kw k d hg4.1 hg2
      obtain ⟨mv, yv, hev, hrpv, hdecv⟩ := rt_val v kw d (l + 1) hg4.2.1
        (by omega) (by omega)
      have hfresh' : allKeysNotIn tl (jkvAppend acc (.cons k v .nil)) = true := by
        rw [allKeys_append]
        rw [hf2.2, allKeys_single k v tl hd2.1]
        rfl
      obtain ⟨mo, yo, heo, hrpo, hdeco⟩ := rt_obj tl kw d l
        (jkvAppend acc (.cons k v .nil)) hg4.2.2.2 hd2.2 hfresh'
        (by omega) (by omega)
      have htp : tablePut acc k v = jkvAppend acc (.cons k v .nil) :=
        tablePut_bytes_fresh acc k v hbyte hvnil hf2.1
      have hknp : ¬ k = JanetV.jnil := by
        intro he'
        rw [he'] at hknil
        simp [isNil] at hknil
      refine ⟨.cons (.mstr ks) mv mo, .cons (.ystr ks) yv yo, ?_, ?_, ?_⟩
      · have hbody : encodeObj (.cons k v tl) d
            = (if k = JanetV.jnil then encodeObj tl d
               else if !(isByteSeq k) then .error "object key must be a byte sequence"
               else match encode_one k d with
                    | .error e => .error e
                    | .ok sk =>
                        match encode_one v d with
                        | .error e => .error e
                        | .ok sv =>
                            match encodeObj tl d with
                            | .error e => .error e
                            | .ok rest => .ok (mutObjAdd sk sv rest)) := rfl
        rw [hbody, if_neg hknp, hbyte, hek, hev, heo] <;> exact rfl
      · show reparseObj (.cons (.mstr ks) mv mo) = some (.cons (.ystr ks) yv yo)
        change (match reparse (.mstr ks), reparse mv, reparseObj mo with
                | some yk, some yv2, some l2 => some (YKVList.cons yk yv2 l2)
                | _, _, _ => none) = _
        rw [hrpv, hrpo] <;> exact rfl
      · have hbody2 : decodeSpecObj kw true (.cons (.ystr ks) yv yo) l acc
            = (match decodeSpec kw true yv (l + 1) with
               | .error e => .error e
               | .ok sv =>
                   decodeSpecObj kw true yo l
                     (tablePut acc
                       (if kw then JanetV.jkey (cstrBytes ks)
                        else JanetV.jstr (cstrBytes ks)) sv)) := rfl
        rw [hbody2, hdecv]
        dsimp only
        rw [hkeyeq, htp, hdeco, jkvAppend_single_assoc]

end

/-- C1 counterexample: the supported-kind value string a, NUL, b (no
function, no opaque handle, no mapping, no NaN or infinity) does not
survive decode(encode ·) under any of the four flag combinations — the
bytes after the interior NUL are lost — so the round-trip claim fails as
stated. -/
theorem claim_c1_counterexample :
    roundtripFull false false (.jstr [97, 0, 98]) = .ok (.jstr [97])
    ∧ roundtripFull false true (.jstr [97, 0, 98]) = .ok (.jstr [97])
    ∧ roundtripFull true false (.jstr [97, 0, 98]) = .ok (.jstr [97])
    ∧ roundtripFull true true (.jstr [97, 0, 98]) = .ok (.jstr [97])
    ∧ JanetV.jstr [97] ≠ JanetV.jstr [97, 0, 98] :=
  ⟨by decide, by decide, by decide, by decide, by decide⟩

/-- C1 (amended): decode(encode v) reproduces v exactly on the round-trip
fragment — values built from nil, booleans, numbers that survive the
integer cast, NUL-free strings, arrays, and tables with distinct NUL-free
keys (strings, or non-null keywords when decoding with keyword_keys) and
non-nil values, nested no deeper than the recursion guard — decoding with
null_to_nil set and keyword_keys matching the keys' tag. -/
theorem claim_c1 :
    ∀ (kw : Bool) (v : JanetV), goodRT kw v = true → jdepthE v ≤ 1024 →
      roundtripTree kw true v = some v := by
  intro kw v hgood hdepth
  obtain ⟨m, y, he, hrp, hdec⟩ := rt_val v kw 0 0 hgood
    (by simpa using hdepth) (by simpa using hdepth)
  have hdec1 : decode_one y (packFlags kw true) = .ok v := by
    cases kw
    · rw [decode_one_refines,
          show (packFlags false true &&& jsonKeywordKey != 0) = false from by decide,
          show (packFlags false true &&& jsonNullToNil != 0) = true from by decide,
          show packFlags false true &&& 65535 = 0 from by decide]
      exact hdec
    · rw [decode_one_refines,
          show (packFlags true true &&& jsonKeywordKey != 0) = true from by decide,
          show (packFlags true true &&& jsonNullToNil != 0) = true from by decide,
          show packFlags true true &&& 65535 = 0 from by decide]
      exact hdec
  unfold roundtripTree
  rw [he]
  dsimp only
  rw [hrp]
  dsimp only
  rw [hdec1]

/-- C1 witness: a table mapping the string a to an array holding the
number 3, the string x and nil round-trips to itself. -/
theorem claim_c1_witness :
    roundtripTree false true
      (.jtab (.cons (.jstr [97])
        (.jarr (.cons (.jnum (.finite 3))
          (.cons (.jstr [120]) (.cons .jnil .nil)))) .nil))
      = some (.jtab (.cons (.jstr [97])
        (.jarr (.cons (.jnum (.finite 3))
          (.cons (.jstr [120]) (.cons .jnil .nil)))) .nil)) :=
  claim_c1 false _ (by decide) (by decide)

end JanetYyjson
